import Mathlib

/-!
Verification of the S-expression pipeline in `hardware/kicad/generate_pcb.py`:
tokenizer, tree builder, document model, schematic extractor, classifier,
layout engine and board serializer.  Every definition below is a shallow
embedding of the corresponding Python function; strings are modelled as
`String` values operated on through their underlying `List Char`, Python
floats as `ℚ` (all coordinate arithmetic performed by the program is exact
decimal arithmetic, so `ℚ` is a faithful model of it), and the fallible
`sorted(..., key=int(...))` call as `Except`.

Recursions that scan a suffix of the input carry an explicit fuel argument
(structural on the fuel) so that all definitions compute inside the kernel;
the fuel is instantiated large enough to be unreachable, and lemmas
`tokenizeF_eq_tokenizeL` below show the chosen fuel is irrelevant.
-/

namespace GeneratePCB

/-- Characters Python's `str.isspace` accepts, restricted to the ASCII
whitespace the tokenizer can actually meet in a KiCad document (the source
calls `c.isspace()`; exotic Unicode whitespace is out of the model). -/
def pyIsSpace (c : Char) : Bool :=
  c = ' ' || c = '\t' || c = '\n' || c = '\x0b' || c = '\x0c' || c = '\r'

/-- Characters that terminate an unquoted atom in `tokenize`
(the Python scan stops on `'() \t\n\r"'`). -/
def atomStop (c : Char) : Bool :=
  c = '(' || c = ')' || c = ' ' || c = '\t' || c = '\n' || c = '\r' || c = '"'

/-- The quoted-string scan of `tokenize` (lines 65-74): starting just after
an opening `"`, consume up to the matching `"`, copying backslash escapes
through as-is (a `\` skips the following character).  Returns the token
content and the remaining input after the closing quote.  An unterminated
string consumes the whole remaining input, exactly like the Python index
arithmetic (`text[i+1:j]` clamps when `j` overshoots). -/
def scanQuoted : List Char → List Char × List Char
  | [] => ([], [])
  | c :: cs =>
    if c = '"' then ([], cs)
    else if c = '\\' then
      match cs with
      | [] => ([c], [])
      | d :: ds =>
        let r := scanQuoted ds
        (c :: d :: r.1, r.2)
    else
      let r := scanQuoted cs
      (c :: r.1, r.2)

theorem scanQuoted_rest_le : ∀ cs : List Char, (scanQuoted cs).2.length ≤ cs.length
  | [] => by simp [scanQuoted]
  | c :: cs => by
    rw [scanQuoted.eq_def]
    by_cases h1 : c = '"'
    · simp [h1]
    · by_cases h2 : c = '\\'
      · match cs with
        | [] => simp [h1, h2]
        | d :: ds =>
          have ih := scanQuoted_rest_le ds
          simp [h1, h2]
          omega
      · have ih := scanQuoted_rest_le cs
        simp [h1, h2]
        omega

theorem dropWhile_length_le (p : Char → Bool) (l : List Char) :
    (l.dropWhile p).length ≤ l.length := by
  induction l with
  | nil => simp
  | cons c cs ih =>
    by_cases h : p c
    · simp [List.dropWhile, h]
      omega
    · simp [List.dropWhile, h]

/-- Fueled body of `tokenize` (lines 56-84).  One unit of fuel is spent per
emitted token or skipped whitespace character, so fuel `text.length` always
suffices; `tokenizeF_eq_tokenizeL` proves the fuel choice irrelevant. -/
def tokenizeF : Nat → List Char → List (List Char)
  | 0, _ => []
  | _ + 1, [] => []
  | fuel + 1, c :: cs =>
    if c = '(' ∨ c = ')' then [c] :: tokenizeF fuel cs
    else if c = '"' then
      let r := scanQuoted cs
      r.1 :: tokenizeF fuel r.2
    else if pyIsSpace c then tokenizeF fuel cs
    else
      ((c :: cs).takeWhile (fun x => !atomStop x)) ::
        tokenizeF fuel ((c :: cs).dropWhile (fun x => !atomStop x))

/-- `tokenize` (lines 56-84): S-expression text to flat token list.  A token
is a bare character list; quoting leaves no trace on the token. -/
def tokenizeL (text : List Char) : List (List Char) := tokenizeF text.length text

theorem tokenizeF_eq_aux :
    ∀ n : Nat, ∀ cs : List Char, cs.length = n →
      ∀ fuel : Nat, cs.length ≤ fuel → tokenizeF fuel cs = tokenizeL cs := by
  intro n
  induction n using Nat.strong_induction_on with
  | _ n ih =>
  intro cs hn fuel hf
  match cs, fuel with
  | [], 0 => rfl
  | [], fuel + 1 => simp [tokenizeL, tokenizeF]
  | c :: cs, fuel + 1 =>
    subst hn
    simp only [List.length_cons] at hf ih
    have hdrop := dropWhile_length_le (fun x => !atomStop x) cs
    have hscan := scanQuoted_rest_le cs
    simp only [tokenizeL, List.length_cons, tokenizeF]
    by_cases hp : c = '(' ∨ c = ')'
    · simp only [if_pos hp]
      rw [ih cs.length (by omega) cs rfl fuel (by omega),
          ih cs.length (by omega) cs rfl cs.length (by omega)]
    · by_cases hq : c = '"'
      · simp only [if_neg hp, if_pos hq]
        rw [ih (scanQuoted cs).2.length (by omega) _ rfl fuel (by omega),
            ih (scanQuoted cs).2.length (by omega) _ rfl cs.length (by omega)]
      · by_cases hw : pyIsSpace c
        · simp only [if_neg hp, if_neg hq, if_pos hw]
          rw [ih cs.length (by omega) cs rfl fuel (by omega),
              ih cs.length (by omega) cs rfl cs.length (by omega)]
        · simp only [if_neg hp, if_neg hq, if_neg hw]
          have hd2 : ((c :: cs).dropWhile (fun x => !atomStop x)).length ≤ cs.length := by
            have hc : (!atomStop c) = true := by
              simp only [atomStop, pyIsSpace] at hp hq hw ⊢
              push_neg at hp
              simp_all
            simp [List.dropWhile, hc]
            exact hdrop
          rw [ih _ (by omega) ((c :: cs).dropWhile (fun x => !atomStop x)) rfl fuel (by omega),
              ih _ (by omega) ((c :: cs).dropWhile (fun x => !atomStop x)) rfl cs.length (by omega)]

/-- Fuel irrelevance for the tokenizer: any fuel at least the input length
gives the same token stream as `tokenizeL`. -/
theorem tokenizeF_eq_tokenizeL (cs : List Char) (fuel : Nat) (hf : cs.length ≤ fuel) :
    tokenizeF fuel cs = tokenizeL cs :=
  tokenizeF_eq_aux cs.length cs rfl fuel hf

/-- Single-step unfolding: an opening parenthesis is a one-character token. -/
theorem tokenizeL_open (cs : List Char) : tokenizeL ('(' :: cs) = [['(']] ++ tokenizeL cs := by
  simp only [tokenizeL, List.length_cons]
  rw [tokenizeF.eq_def]
  simp

/-- Single-step unfolding: a closing parenthesis is a one-character token. -/
theorem tokenizeL_close (cs : List Char) : tokenizeL (')' :: cs) = [[')']] ++ tokenizeL cs := by
  simp only [tokenizeL, List.length_cons]
  rw [tokenizeF.eq_def]
  simp

@[simp]
theorem tokenizeL_nil : tokenizeL [] = [] := rfl

/-- Single-step unfolding: whitespace is discarded. -/
theorem tokenizeL_ws (c : Char) (hw : pyIsSpace c = true) (cs : List Char) :
    tokenizeL (c :: cs) = tokenizeL cs := by
  have hp : ¬(c = '(' ∨ c = ')') := by
    rintro (rfl | rfl) <;> simp [pyIsSpace] at hw
  have hq : ¬(c = '"') := by
    rintro rfl; simp [pyIsSpace] at hw
  simp only [tokenizeL, List.length_cons]
  rw [tokenizeF.eq_def]
  simp only [hp, hq, hw, if_false, if_true, ite_false, ite_true]

/-- Single-step unfolding: a quote starts the quoted-string scan. -/
theorem tokenizeL_quote (cs : List Char) :
    tokenizeL ('"' :: cs) = (scanQuoted cs).1 :: tokenizeL (scanQuoted cs).2 := by
  simp only [tokenizeL, List.length_cons]
  rw [tokenizeF.eq_def]
  simp [tokenizeF_eq_tokenizeL (scanQuoted cs).2 cs.length (scanQuoted_rest_le cs)]
  rfl

/-- Single-step unfolding: any other character starts an unquoted-atom scan. -/
theorem tokenizeL_atomStart (c : Char) (cs : List Char)
    (hp : ¬(c = '(' ∨ c = ')')) (hq : c ≠ '"') (hw : pyIsSpace c = false) :
    tokenizeL (c :: cs) =
      ((c :: cs).takeWhile (fun x => !atomStop x)) ::
        tokenizeL ((c :: cs).dropWhile (fun x => !atomStop x)) := by
  have hc : (!atomStop c) = true := by
    simp only [atomStop, pyIsSpace] at hp hq hw ⊢
    push_neg at hp
    simp_all
  have hd2 : ((c :: cs).dropWhile (fun x => !atomStop x)).length ≤ cs.length := by
    simp [List.dropWhile, hc]
    exact dropWhile_length_le _ cs
  simp only [tokenizeL, List.length_cons]
  rw [tokenizeF.eq_def]
  simp only [hp, if_false, hq, if_false, hw, if_false, ite_false]
  rw [tokenizeF_eq_tokenizeL _ cs.length hd2]
  simp [hw]
  rfl

/-- A quoted-string scan that never meets a quote consumes everything
(the unterminated-quote behavior of the source). -/
theorem scanQuoted_no_quote : ∀ cs : List Char, '"' ∉ cs → scanQuoted cs = (cs, [])
  | [] => by intro h; simp [scanQuoted]
  | c :: cs => by
    intro h
    have h1 : c ≠ '"' := by rintro rfl; simp at h
    have h2 : '"' ∉ cs := by intro hm; exact h (List.mem_cons_of_mem _ hm)
    rw [scanQuoted.eq_def]
    by_cases hb : c = '\\'
    · match cs with
      | [] => simp [h1, hb]
      | d :: ds =>
        have h3 : '"' ∉ ds := by intro hm; exact h2 (List.mem_cons_of_mem _ hm)
        have ih := scanQuoted_no_quote ds h3
        simp [h1, hb, ih]
    · have ih := scanQuoted_no_quote cs h2
      simp [h1, hb, ih]

/-- A quote-free, backslash-free content followed by a closing quote scans
to exactly that content. -/
theorem scanQuoted_safe :
    ∀ s : List Char, '"' ∉ s → '\\' ∉ s →
      ∀ rest : List Char, scanQuoted (s ++ '"' :: rest) = (s, rest)
  | [] => by
    intro hq hb rest
    rw [List.nil_append, scanQuoted.eq_def]
    simp
  | c :: s => by
    intro hq hb rest
    have h1 : c ≠ '"' := by rintro rfl; simp at hq
    have h2 : c ≠ '\\' := by rintro rfl; simp at hb
    have ih := scanQuoted_safe s (fun hm => hq (List.mem_cons_of_mem _ hm))
      (fun hm => hb (List.mem_cons_of_mem _ hm)) rest
    rw [scanQuoted.eq_def]
    simp [h1, h2, ih]

/-- A run of atom characters followed by a stopping character tokenizes to
one atom token, leaving the rest untouched. -/
theorem tokenizeL_atomRun :
    ∀ s : List Char, s ≠ [] →
      (∀ c ∈ s, atomStop c = false ∧ pyIsSpace c = false) →
      ∀ d : Char, atomStop d = true → ∀ rest : List Char,
        tokenizeL (s ++ d :: rest) = s :: tokenizeL (d :: rest) := by
  intro s hne hall d hd rest
  match s with
  | c :: t =>
    have hc := hall c (List.mem_cons_self c t)
    have hp : ¬(c = '(' ∨ c = ')') := by
      rintro (rfl | rfl) <;> simp [atomStop] at hc
    have hq : c ≠ '"' := by
      rintro rfl; simp [atomStop] at hc
    have htake : ∀ u : List Char, (∀ x ∈ u, atomStop x = false) →
        (u ++ d :: rest).takeWhile (fun x => !atomStop x) = u ∧
        (u ++ d :: rest).dropWhile (fun x => !atomStop x) = d :: rest := by
      intro u hu
      induction u with
      | nil => simp [List.takeWhile, List.dropWhile, hd]
      | cons a u ih =>
        have ha := hu a (List.mem_cons_self a u)
        have hrec := ih fun x hx => hu x (List.mem_cons_of_mem _ hx)
        simp [List.takeWhile, List.dropWhile, ha, hrec.1, hrec.2]
    have hres := htake (c :: t) fun x hx => (hall x hx).1
    rw [List.cons_append] at hres 
    rw [List.cons_append, tokenizeL_atomStart c (t ++ d :: rest) hp hq hc.2]
    rw [hres.1, hres.2]

/-- `SExp` (lines 21-46): the generic node of the simple S-expression
parser.  As in the source, one type plays both roles: a structural node
carries a tag and children, a leaf carries an atom value. -/
inductive SExp where
  | mk (tag : String) (children : List SExp) (value : Option String)

def SExp.tag : SExp → String
  | .mk t _ _ => t

def SExp.children : SExp → List SExp
  | .mk _ c _ => c

def SExp.value : SExp → Option String
  | .mk _ _ v => v

/-- The node `SExp()` built by the source when input is exhausted. -/
def SExp.empty : SExp := .mk "" [] none

/-- The node `SExp(value=v)` built for an atom token. -/
def SExp.atom (v : String) : SExp := .mk "" [] (some v)

/-- Fueled child loop of `parse_tokens` (lines 87-118), entered after the
opening parenthesis and the tag have been consumed: children accumulate
until a `)` or token exhaustion; a nested `(` recurses.  One unit of fuel
is spent per consumed token, so fuel `tokens.length + 1` always suffices. -/
def parseChildrenF : Nat → String → List SExp → List String → SExp × List String
  | 0, tag, acc, ts => (.mk tag acc.reverse none, ts)
  | _ + 1, tag, acc, [] => (.mk tag acc.reverse none, [])
  | fuel + 1, tag, acc, t :: rest =>
    if t = ")" then (.mk tag acc.reverse none, rest)
    else if t = "(" then
      match rest with
      | [] => parseChildrenF fuel tag (SExp.empty :: acc) []
      | tag2 :: rest2 =>
        let r := parseChildrenF fuel tag2 [] rest2
        parseChildrenF fuel tag (r.1 :: acc) r.2
    else parseChildrenF fuel tag (SExp.atom t :: acc) rest

/-- `parse_tokens` (lines 87-118) on a whole token list: parse one form,
returning the node and the unconsumed tokens (the mutable cursor of the
source becomes the returned remainder). -/
def parse_tokens (ts : List String) : SExp × List String :=
  match ts with
  | [] => (SExp.empty, [])
  | t :: rest =>
    if t = "(" then
      match rest with
      | [] => (SExp.empty, [])
      | tag :: rest2 => parseChildrenF (rest2.length + 1) tag [] rest2
    else (SExp.atom t, rest)

/-- `parse_sexp` (lines 49-53): tokenize then build the first form. -/
def parse_sexp (text : String) : SExp :=
  (parse_tokens ((tokenizeL text.data).map fun l => String.mk l)).1

/-- Document model, `SExp.find_all` (lines 28-30). -/
def SExp.find_all (node : SExp) (tag : String) : List SExp :=
  node.children.filter fun c => c.tag = tag

/-- Document model, `SExp.get` (lines 32-37). -/
def SExp.get (node : SExp) (tag : String) : Option SExp :=
  node.children.find? fun c => c.tag = tag

/-- Document model, `SExp.get_atoms` (lines 39-41). -/
def SExp.get_atoms (node : SExp) : List String :=
  node.children.filterMap fun c => c.value

/-- Document model, `SExp.get_first_atom` (lines 43-46). -/
def SExp.get_first_atom (node : SExp) : Option String :=
  node.get_atoms.head?

/-- With only plain atom tokens left (no parenthesis tokens), the child
loop consumes the whole stream and returns the node with the atoms seen so
far — the truncation behavior of the source when tokens run out mid-node. -/
theorem parseChildrenF_atoms :
    ∀ ts : List String, (∀ t ∈ ts, t ≠ "(" ∧ t ≠ ")") →
      ∀ fuel : Nat, ts.length < fuel → ∀ tag acc,
        parseChildrenF fuel tag acc ts =
          (.mk tag (acc.reverse ++ ts.map SExp.atom) none, []) := by
  intro ts
  induction ts with
  | nil =>
    intro _ fuel hf tag acc
    match fuel with
    | f + 1 => simp [parseChildrenF]
  | cons t rest ih =>
    intro hall fuel hf tag acc
    have ht := hall t (List.mem_cons_self t rest)
    match fuel with
    | f + 1 =>
      rw [parseChildrenF.eq_def]
      simp only [ht.2, ht.1, if_false, ite_false]
      have := ih (fun x hx => hall x (List.mem_cons_of_mem _ hx)) f
        (by simp at hf; omega) tag (SExp.atom t :: acc)
      rw [this]
      simp

/-- Decimal value of a digit character. -/
def digitVal (c : Char) : Nat := c.toNat - 48

/-- Digit scan of Python `int(str)`: decimal digits with single underscores
allowed between digits only. -/
def parseDigitsGo : Nat → List Char → Option Nat
  | acc, [] => some acc
  | acc, c :: cs =>
    if c.isDigit then parseDigitsGo (acc * 10 + digitVal c) cs
    else if c = '_' then
      match cs with
      | [] => none
      | d :: ds => if d.isDigit then parseDigitsGo (acc * 10 + digitVal d) ds else none
    else none

def parseDigits : List Char → Option Nat
  | [] => none
  | c :: cs => if c.isDigit then parseDigitsGo (digitVal c) cs else none

/-- Python `int(str)` as used on reference-designator suffixes (line 222):
optional surrounding whitespace, optional sign, then decimal digits with
single underscores between digits; anything else raises `ValueError`,
modelled as `none`.  (Non-ASCII digits are outside the model.) -/
def pyIntParse (s : String) : Option Int :=
  let t := ((s.data.dropWhile pyIsSpace).reverse.dropWhile pyIsSpace).reverse
  match t with
  | '+' :: rest => (parseDigits rest).map fun n => (n : Int)
  | '-' :: rest => (parseDigits rest).map fun n => -(n : Int)
  | rest => (parseDigits rest).map fun n => (n : Int)

/-- `Component` (lines 127-137): a component record extracted from the
schematic, with the constructed defaults of the dataclass. -/
structure Component where
  ref : String
  value : String
  footprint : String
  lib_id : String
  x : ℚ := 0
  y : ℚ := 0
  rotation : ℚ := 0
  layer : String := "F.Cu"
deriving DecidableEq, Repr

/-- The property loop of `parse_schematic` (lines 172-188): scan `property`
children in order; a property with at least two atoms assigns its second
atom to the field named by its first; later occurrences overwrite. -/
def propFold : List SExp → String × String × String → String × String × String
  | [], acc => acc
  | p :: ps, (r, v, f) =>
    match p.get_atoms with
    | n :: val :: _ =>
      if n = "Reference" then propFold ps (val, v, f)
      else if n = "Value" then propFold ps (r, val, f)
      else if n = "Footprint" then propFold ps (r, v, val)
      else propFold ps (r, v, f)
    | _ => propFold ps (r, v, f)

/-- Per-symbol body of the `parse_schematic` loop (lines 146-197): `none`
models every `continue` (lib_symbols subtree, non-symbol child, missing or
empty or power-library lib_id, missing Reference or Footprint). -/
def extractSymbol (child : SExp) : Option Component :=
  if child.tag = "lib_symbols" then none
  else if ¬(child.tag = "symbol") then none
  else
    match child.get "lib_id" with
    | none => none
    | some lidNode =>
      match lidNode.get_first_atom with
      | none => none
      | some lib_id =>
        if lib_id = "" then none
        else if "power:".data.isPrefixOf lib_id.data then none
        else
          let rvf := propFold (child.find_all "property") ("", "", "")
          if rvf.1 = "" then none
          else if rvf.2.2 = "" then none
          else some { ref := rvf.1, value := rvf.2.1, footprint := rvf.2.2, lib_id := lib_id }

/-- `parse_schematic` (lines 140-199) on a parsed document: one record per
qualifying top-level `symbol` child, in source order. -/
def parse_schematic (doc : SExp) : List Component :=
  doc.children.filterMap extractSymbol

/-- The nine functional groups of `group_components` (lines 202-214). -/
inductive GroupName where
  | supercap_pos
  | supercap_neg
  | connectors
  | mcu
  | sensing
  | discharge
  | charging
  | power
  | passives
deriving DecidableEq, Repr

/-- The supercap rule of `group_components` (lines 219-230): refs `C<N>`
with an `int`-parseable suffix go to a bank when `101 ≤ N ≤ 130` or
`131 ≤ N ≤ 160`; parse failures and out-of-range numbers fall through. -/
def supercapGroup (ref : String) : Option GroupName :=
  if "C".data.isPrefixOf ref.data ∧ 1 < ref.data.length then
    match pyIntParse (String.mk (ref.data.drop 1)) with
    | some num =>
      if 101 ≤ num ∧ num ≤ 130 then some .supercap_pos
      else if 131 ≤ num ∧ num ≤ 160 then some .supercap_neg
      else none
    | none => none
  else none

/-- The `if/elif` chain of `group_components` (lines 232-270), reached
when the supercap rule fell through. -/
def classifyChain (ref : String) : GroupName :=
  if "J".data.isPrefixOf ref.data then .connectors
  else if ref = "U1" then .mcu
  else if ref = "U2" then .sensing
  else if ref = "U3" then .power
  else if ref = "U4" then .sensing
  else if ref = "Q1" ∨ ref = "Q2" then .discharge
  else if ref = "Q3" ∨ ref = "Q4" ∨ ref = "R11" ∨ ref = "R12" then .charging
  else if "RV".data.isPrefixOf ref.data then .connectors
  else if "D".data.isPrefixOf ref.data ∨ "LED".data.isPrefixOf ref.data then .passives
  else .passives

/-- The full classification of `group_components` (lines 216-270): the
supercap rule first (`continue` on a hit), then the chain. -/
def classify (ref : String) : GroupName :=
  match supercapGroup ref with
  | some g => g
  | none => classifyChain ref

/-- The nine group lists built by `group_components` (lines 202-214). -/
structure Groups where
  supercap_pos : List Component
  supercap_neg : List Component
  connectors : List Component
  mcu : List Component
  sensing : List Component
  discharge : List Component
  charging : List Component
  power : List Component
  passives : List Component
deriving DecidableEq, Repr

def Groups.empty : Groups := ⟨[], [], [], [], [], [], [], [], []⟩

def Groups.get (gs : Groups) : GroupName → List Component
  | .supercap_pos => gs.supercap_pos
  | .supercap_neg => gs.supercap_neg
  | .connectors => gs.connectors
  | .mcu => gs.mcu
  | .sensing => gs.sensing
  | .discharge => gs.discharge
  | .charging => gs.charging
  | .power => gs.power
  | .passives => gs.passives

/-- Append a component to the list named by `g` (the `groups[...].append`
of the source). -/
def Groups.add (gs : Groups) (g : GroupName) (c : Component) : Groups :=
  match g with
  | .supercap_pos => { gs with supercap_pos := gs.supercap_pos ++ [c] }
  | .supercap_neg => { gs with supercap_neg := gs.supercap_neg ++ [c] }
  | .connectors => { gs with connectors := gs.connectors ++ [c] }
  | .mcu => { gs with mcu := gs.mcu ++ [c] }
  | .sensing => { gs with sensing := gs.sensing ++ [c] }
  | .discharge => { gs with discharge := gs.discharge ++ [c] }
  | .charging => { gs with charging := gs.charging ++ [c] }
  | .power => { gs with power := gs.power ++ [c] }
  | .passives => { gs with passives := gs.passives ++ [c] }

/-- `group_components` (lines 202-272): append each record, in input
order, to the single group chosen by the classification chain. -/
def group_components (comps : List Component) : Groups :=
  comps.foldl (fun gs c => gs.add (classify c.ref) c) Groups.empty

theorem Groups.get_add (gs : Groups) (h g : GroupName) (c : Component) :
    (gs.add h c).get g = gs.get g ++ if h = g then [c] else [] := by
  cases h <;> cases g <;> simp [Groups.add, Groups.get]

theorem group_components_get_aux :
    ∀ (comps : List Component) (gs : Groups) (g : GroupName),
      (comps.foldl (fun gs c => gs.add (classify c.ref) c) gs).get g =
        gs.get g ++ comps.filter fun c => classify c.ref = g := by
  intro comps
  induction comps with
  | nil => intro gs g; simp
  | cons c cs ih =>
    intro gs g
    rw [List.foldl_cons, ih, Groups.get_add]
    by_cases h : classify c.ref = g
    · simp [List.filter_cons, h]
    · simp [List.filter_cons, h]

/-- Filter characterization of `group_components`: each group holds exactly
the records the chain classifies to it, in input order. -/
theorem group_components_get (comps : List Component) (g : GroupName) :
    (group_components comps).get g = comps.filter fun c => classify c.ref = g := by
  rw [group_components, group_components_get_aux]
  cases g <;> simp [Groups.empty, Groups.get]

/-- Numeric sort key `int(c.ref[1:])` used on the supercap banks
(lines 299, 309, 385, 394); `getD 0` is never taken when the guard below
holds. -/
def scKey (c : Component) : Int :=
  (pyIntParse (String.mk (c.ref.data.drop 1))).getD 0

def scLe (c d : Component) : Prop := scKey c ≤ scKey d

instance : DecidableRel scLe := fun c d => inferInstanceAs (Decidable (scKey c ≤ scKey d))

/-- The `for i, x in enumerate(...)` loops of the layout engine and the
serializer: apply an index-dependent function to each element. -/
def idxMap {a b : Type} (f : Nat → a → b) : Nat → List a → List b
  | _, [] => []
  | i, c :: cs => f i c :: idxMap f (i + 1) cs

/-- Guard for the fallible sort key: `sorted(..., key=lambda c: int(c.ref[1:]))`
raises `ValueError` when any supercap record has a non-numeric suffix. -/
def scSortable (gs : Groups) : Bool :=
  (gs.supercap_pos ++ gs.supercap_neg).all fun c =>
    (pyIntParse (String.mk (c.ref.data.drop 1))).isSome

/-- The compact (4-layer) policy of `place_components` (lines 287-372). -/
def placeCompact (gs : Groups) (board_width : ℚ) (margin : ℚ) : Groups :=
  let sc_spacing : ℚ := 11
  let sc_start_x := margin + 8
  let sc_start_y_pos := margin + 8
  let pos := idxMap (fun i c => { c with
      x := sc_start_x + ((i % 10 : Nat) : ℚ) * sc_spacing,
      y := sc_start_y_pos + ((i / 10 : Nat) : ℚ) * sc_spacing,
      rotation := 0 }) 0 (List.insertionSort scLe gs.supercap_pos)
  let sc_start_y_neg := sc_start_y_pos + 3 * sc_spacing + 4
  let neg := idxMap (fun i c => { c with
      x := sc_start_x + ((i % 10 : Nat) : ℚ) * sc_spacing,
      y := sc_start_y_neg + ((i / 10 : Nat) : ℚ) * sc_spacing,
      rotation := 0 }) 0 (List.insertionSort scLe gs.supercap_neg)
  let ctrl_y := sc_start_y_neg + 3 * sc_spacing + 8
  let conn_x := margin + 8
  let conn := idxMap (fun i c => { c with
      x := conn_x + (i : ℚ) * 15, y := ctrl_y + 5, rotation := 0 }) 0 gs.connectors
  let mosfet_x := board_width - margin - 10
  let mosfet_y := ctrl_y + 10
  let dis := idxMap (fun i c => { c with
      x := mosfet_x, y := mosfet_y + (i : ℚ) * 15, rotation := 270 }) 0 gs.discharge
  let mcu_x := board_width / 2
  let mcu_y := ctrl_y + 8
  let mcu := gs.mcu.map fun c => { c with x := mcu_x, y := mcu_y, rotation := 0 }
  let sense_x := mcu_x + 25
  let sense_y := mcu_y
  let sens := idxMap (fun i c => { c with
      x := sense_x, y := sense_y + (i : ℚ) * 10, rotation := 0 }) 0 gs.sensing
  let pwr := gs.power.map fun c => { c with x := mcu_x - 15, y := mcu_y, rotation := 0 }
  let charge_x := board_width - margin - 45
  let charge_y := ctrl_y + 5
  let chg := idxMap (fun i c => { c with
      x := charge_x + ((i % 2 : Nat) : ℚ) * 10,
      y := charge_y + ((i / 2 : Nat) : ℚ) * 8, rotation := 0 }) 0 gs.charging
  let passive_x := mcu_x - 25
  let passive_y := ctrl_y + 20
  let pas := idxMap (fun i c => { c with
      x := passive_x + ((i % 6 : Nat) : ℚ) * 6,
      y := passive_y + ((i / 6 : Nat) : ℚ) * 5, rotation := 0 }) 0 gs.passives
  ⟨pos, neg, conn, mcu, sens, dis, chg, pwr, pas⟩

/-- The standard (2-layer) policy of `place_components` (lines 374-455). -/
def placeStandard (gs : Groups) (board_width board_height : ℚ) (margin : ℚ) : Groups :=
  let sc_spacing : ℚ := 12
  let sc_start_x := margin + 25
  let sc_start_y_pos := margin + 15
  let pos := idxMap (fun i c => { c with
      x := sc_start_x + ((i % 10 : Nat) : ℚ) * sc_spacing,
      y := sc_start_y_pos + ((i / 10 : Nat) : ℚ) * sc_spacing,
      rotation := 0 }) 0 (List.insertionSort scLe gs.supercap_pos)
  let sc_start_y_neg := sc_start_y_pos + 3 * sc_spacing + 10
  let neg := idxMap (fun i c => { c with
      x := sc_start_x + ((i % 10 : Nat) : ℚ) * sc_spacing,
      y := sc_start_y_neg + ((i / 10 : Nat) : ℚ) * sc_spacing,
      rotation := 0 }) 0 (List.insertionSort scLe gs.supercap_neg)
  let conn_x := margin + 8
  let conn_y : ℚ := 25
  let conn := idxMap (fun i c => { c with
      x := conn_x, y := conn_y + (i : ℚ) * 18, rotation := 0 }) 0 gs.connectors
  let mosfet_x := board_width - margin - 12
  let mosfet_y := board_height / 2
  let dis := idxMap (fun i c => { c with
      x := mosfet_x, y := mosfet_y - 10 + (i : ℚ) * 20, rotation := 270 }) 0 gs.discharge
  let mcu_x := board_width - margin - 40
  let mcu_y := margin + 20
  let mcu := gs.mcu.map fun c => { c with x := mcu_x, y := mcu_y, rotation := 0 }
  let sense_x := board_width - margin - 50
  let sense_y := margin + 45
  let sens := idxMap (fun i c => { c with
      x := sense_x, y := sense_y + (i : ℚ) * 12, rotation := 0 }) 0 gs.sensing
  let pwr := gs.power.map fun c => { c with x := mcu_x - 18, y := mcu_y, rotation := 0 }
  let charge_x := board_width - margin - 70
  let charge_y := board_height / 2 + 10
  let chg := idxMap (fun i c => { c with
      x := charge_x + ((i % 2 : Nat) : ℚ) * 12,
      y := charge_y + ((i / 2 : Nat) : ℚ) * 10, rotation := 0 }) 0 gs.charging
  let passive_x := board_width - margin - 55
  let passive_y := margin + 75
  let pas := idxMap (fun i c => { c with
      x := passive_x + ((i % 5 : Nat) : ℚ) * 7,
      y := passive_y + ((i / 5 : Nat) : ℚ) * 5, rotation := 0 }) 0 gs.passives
  ⟨pos, neg, conn, mcu, sens, dis, chg, pwr, pas⟩

/-- `place_components` (lines 275-455): assign positions and rotations to
every record of every group, under the policy selected by `compact`.  The
source mutates records in place; the embedding returns the updated groups,
with the supercap lists in the sorted order the enumeration walks (the
multiset of placed records is the same).  A non-numeric supercap suffix
makes Python's `sorted` raise; that is the `Except.error` case. -/
def place_components (gs : Groups) (board_width board_height : ℚ)
    (compact : Bool) : Except String Groups :=
  if ¬scSortable gs then .error "ValueError: invalid literal for int() with base 10"
  else
    let margin : ℚ := if compact then 4 else 5
    if compact then .ok (placeCompact gs board_width margin)
    else .ok (placeStandard gs board_width board_height margin)

/-- Decimal digit character for `n % 10`. -/
def digitChar10 (n : Nat) : Char := Char.ofNat (48 + n % 10)

/-- Fueled most-significant-first decimal digit writer. -/
def natDigitsGo : Nat → Nat → List Char → List Char
  | 0, _, acc => acc
  | fuel + 1, n, acc =>
    if n < 10 then digitChar10 n :: acc
    else natDigitsGo fuel (n / 10) (digitChar10 n :: acc)

/-- Decimal representation of a natural number (what Python prints). -/
def natRepr (n : Nat) : String := String.mk (natDigitsGo (n + 1) n [])

/-- Decimal representation of an integer (what Python prints). -/
def intRepr (i : Int) : String := (if i < 0 then "-" else "") ++ natRepr i.natAbs

/-- Exactly four decimal digits of `n < 10000`, zero padded. -/
def frac4 (n : Nat) : String :=
  String.mk [digitChar10 (n / 1000), digitChar10 (n / 100), digitChar10 (n / 10), digitChar10 n]

/-- Round to the nearest integer (halves up), `⌊q + 1/2⌋` computed by
integer floor division. -/
def ratRound (q : ℚ) : Int := Int.fdiv (2 * q.num + q.den) (2 * q.den)

/-- `format_coord` (lines 463-465), Python `f"{val:.4f}"`: fixed 4-decimal
formatting.  Every coordinate this program produces is an exact multiple of
1/10000 (in fact of 1/2), so no rounding ever happens; `ratRound` stands in
for the tie behavior of the binary-float formatter on the unreachable
inputs. -/
def format_coord (q : ℚ) : String :=
  (if ratRound (q * 10000) < 0 then "-" else "")
    ++ natRepr ((ratRound (q * 10000)).natAbs / 10000)
    ++ "." ++ frac4 ((ratRound (q * 10000)).natAbs % 10000)

/-- Python `str()` of the rotation interpolated at line 638.  In the source
the rotation is always the int literal 0 or 270 (dataclass default 0, the
layout engine assigns 0 or 270), so the repr is the plain decimal integer;
non-integral rationals are unreachable and given a harmless fallback. -/
def pyNumRepr (q : ℚ) : String :=
  if q.den = 1 then intRepr q.num else intRepr q.num ++ "/" ++ natRepr q.den

/-- `f"{val:.0f}"` used in the stackup comment (lines 508, 529). -/
def format0 (q : ℚ) : String := intRepr (ratRound q)

/-- The character-level effect of `comp.footprint.replace('"', '\\"')`
(line 632). -/
def escQ : List Char → List Char
  | [] => []
  | c :: cs => if c = '"' then '\\' :: '"' :: escQ cs else c :: escQ cs

/-- `.replace('"', '\\"')`: escape every double quote as backslash-quote. -/
def escapeQuotes (s : String) : String := String.mk (escQ s.data)

/-- The net table dict literal of `generate_pcb` (lines 473-481), in
insertion order. -/
def nets : List (String × Nat) :=
  [("", 0), ("GND", 1), ("+3.3V", 2), ("AC_L", 3), ("AC_N", 4), ("SC_POS", 5), ("SC_NEG", 6)]

def netIdLe (a b : String × Nat) : Prop := a.2 ≤ b.2

instance : DecidableRel netIdLe := fun a b => inferInstanceAs (Decidable (a.2 ≤ b.2))

/-- One `(net <id> "<name>")` line (line 561). -/
def netLine (p : String × Nat) : String :=
  "  (net " ++ natRepr p.2 ++ " \"" ++ p.1 ++ "\")"

/-- The net section (lines 559-562): net lines sorted by net id. -/
def netsSection : String :=
  String.intercalate "\n" ((List.insertionSort netIdLe nets).map netLine)

/-- The layer table literals of `generate_pcb` (lines 487-507 for 4 layers,
510-528 otherwise). -/
def layer_def (num_layers : Nat) : String :=
  if num_layers = 4 then
    "  (layers\n    (0 \"F.Cu\" signal)\n    (1 \"In1.Cu\" signal)\n    (2 \"In2.Cu\" signal)\n    (31 \"B.Cu\" signal)\n    (32 \"B.Adhes\" user \"B.Adhesive\")\n    (33 \"F.Adhes\" user \"F.Adhesive\")\n    (34 \"B.Paste\" user)\n    (35 \"F.Paste\" user)\n    (36 \"B.SilkS\" user \"B.Silkscreen\")\n    (37 \"F.SilkS\" user \"F.Silkscreen\")\n    (38 \"B.Mask\" user)\n    (39 \"F.Mask\" user)\n    (40 \"Dwgs.User\" user \"User.Drawings\")\n    (41 \"Cmts.User\" user \"User.Comments\")\n    (44 \"Edge.Cuts\" user)\n    (46 \"B.CrtYd\" user \"B.Courtyard\")\n    (47 \"F.CrtYd\" user \"F.Courtyard\")\n    (48 \"B.Fab\" user)\n    (49 \"F.Fab\" user)\n  )"
  else
    "  (layers\n    (0 \"F.Cu\" signal)\n    (31 \"B.Cu\" signal)\n    (32 \"B.Adhes\" user \"B.Adhesive\")\n    (33 \"F.Adhes\" user \"F.Adhesive\")\n    (34 \"B.Paste\" user)\n    (35 \"F.Paste\" user)\n    (36 \"B.SilkS\" user \"B.Silkscreen\")\n    (37 \"F.SilkS\" user \"F.Silkscreen\")\n    (38 \"B.Mask\" user)\n    (39 \"F.Mask\" user)\n    (40 \"Dwgs.User\" user \"User.Drawings\")\n    (41 \"Cmts.User\" user \"User.Comments\")\n    (44 \"Edge.Cuts\" user)\n    (46 \"B.CrtYd\" user \"B.Courtyard\")\n    (47 \"F.CrtYd\" user \"F.Courtyard\")\n    (48 \"B.Fab\" user)\n    (49 \"F.Fab\" user)\n  )"

/-- The stackup comment (lines 508, 529). -/
def stackupComment (w h : ℚ) (num_layers : Nat) : String :=
  if num_layers = 4 then format0 w ++ "x" ++ format0 h ++ "mm 4-layer: F.Cu/GND/PWR/B.Cu"
  else format0 w ++ "x" ++ format0 h ++ "mm 2-layer PCB"

/-- The header/metadata section appended first (lines 532-556), layer table
and setup block included, exactly as the source f-string lays them out. -/
def headerSection (w h : ℚ) (num_layers : Nat) : String :=
  "(kicad_pcb\n  (version 20241229)\n  (generator \"generate_pcb.py\")\n  (generator_version \"1.0\")\n  (general\n    (thickness 1.6)\n    (legacy_teardrops no)\n  )\n  (paper \"A4\")\n  (title_block\n    (title \"Generator Soft-Start\")\n    (date \"2025-01\")\n    (rev \"A\")\n    (comment 1 \"Supercapacitor Power Assist\")\n    (comment 2 \"" ++ stackupComment w h num_layers ++ "\")\n  )\n" ++ layer_def num_layers ++ "\n  (setup\n    (pad_to_mask_clearance 0.05)\n    (allow_soldermask_bridges_in_footprints no)\n    (pcbplotparams\n      (layerselection 0x00010fc_ffffffff)\n      (plot_on_all_layers_selection 0x0000000_00000000)\n    )\n  )"

/-- The board outline (lines 565-577): one rectangle on Edge.Cuts from
(0,0) to (width,height). -/
def outlineBlock (w h : ℚ) (u : String) : String :=
  "\n  (gr_rect\n    (start 0 0)\n    (end " ++ format_coord w ++ " " ++ format_coord h ++
  ")\n    (stroke\n      (width 0.15)\n      (type solid)\n    )\n    (fill none)\n    (layer \"Edge.Cuts\")\n    (uuid \"" ++ u ++ "\")\n  )"

/-- The four mounting-hole corner positions (lines 580-586). -/
def mountPositions (w h : ℚ) : List (ℚ × ℚ) :=
  let mount_offset : ℚ := 4
  [(mount_offset, mount_offset), (w - mount_offset, mount_offset),
   (mount_offset, h - mount_offset), (w - mount_offset, h - mount_offset)]

/-- One mounting-hole footprint block (lines 588-622); the five fresh
identifiers appear in source evaluation order. -/
def holeBlock (mx my : ℚ) (idx : Nat) (u1 u2 u3 u4 u5 : String) : String :=
  "\n  (footprint \"MountingHole:MountingHole_3.2mm_M3\"\n    (layer \"F.Cu\")\n    (uuid \"" ++ u1 ++
  "\")\n    (at " ++ format_coord mx ++ " " ++ format_coord my ++
  ")\n    (property \"Reference\" \"H" ++ natRepr (idx + 1) ++
  "\"\n      (at 0 -3 0)\n      (layer \"F.SilkS\")\n      (uuid \"" ++ u2 ++
  "\")\n      (effects (font (size 0.8 0.8) (thickness 0.12)))\n    )\n    (property \"Value\" \"MountingHole\"\n      (at 0 3 0)\n      (layer \"F.Fab\")\n      (uuid \"" ++ u3 ++
  "\")\n      (effects (font (size 0.8 0.8) (thickness 0.12)))\n    )\n    (property \"Footprint\" \"MountingHole:MountingHole_3.2mm_M3\"\n      (at 0 0 0)\n      (layer \"F.Fab\")\n      (hide yes)\n      (uuid \"" ++ u4 ++
  "\")\n      (effects (font (size 1 1) (thickness 0.15)))\n    )\n    (pad \"1\" thru_hole circle\n      (at 0 0)\n      (size 6.4 6.4)\n      (drill 3.2)\n      (layers \"*.Cu\" \"*.Mask\")\n      (remove_unused_layers no)\n      (uuid \"" ++ u5 ++
  "\")\n    )\n  )"

/-- One component footprint block (lines 625-658): footprint name quote
escaped, layer, position with rotation, and the three text properties; the
four fresh identifiers appear in source evaluation order. -/
def footprintBlock (c : Component) (u1 u2 u3 u4 : String) : String :=
  "\n  (footprint \"" ++ escapeQuotes c.footprint ++
  "\"\n    (layer \"" ++ c.layer ++
  "\")\n    (uuid \"" ++ u1 ++
  "\")\n    (at " ++ format_coord c.x ++ " " ++ format_coord c.y ++ " " ++ pyNumRepr c.rotation ++
  ")\n    (property \"Reference\" \"" ++ c.ref ++
  "\"\n      (at 0 -2 0)\n      (layer \"F.SilkS\")\n      (uuid \"" ++ u2 ++
  "\")\n      (effects (font (size 0.8 0.8) (thickness 0.12)))\n    )\n    (property \"Value\" \"" ++ c.value ++
  "\"\n      (at 0 2 0)\n      (layer \"F.Fab\")\n      (uuid \"" ++ u3 ++
  "\")\n      (effects (font (size 0.8 0.8) (thickness 0.12)))\n    )\n    (property \"Footprint\" \"" ++ escapeQuotes c.footprint ++
  "\"\n      (at 0 0 0)\n      (layer \"F.Fab\")\n      (hide yes)\n      (uuid \"" ++ u4 ++
  "\")\n      (effects (font (size 1 1) (thickness 0.15)))\n    )\n  )"

/-- The mounting-hole loop (lines 588-622): five fresh identifiers per
hole, drawn in order from the injectable supply `g` starting at index `k`. -/
def emitHoles (g : Nat → String) : Nat → Nat → List (ℚ × ℚ) → List String × Nat
  | k, _, [] => ([], k)
  | k, i, p :: rest =>
    let s := holeBlock p.1 p.2 i (g k) (g (k + 1)) (g (k + 2)) (g (k + 3)) (g (k + 4))
    let r := emitHoles g (k + 5) (i + 1) rest
    (s :: r.1, r.2)

/-- The component loop (lines 625-658): four fresh identifiers per record. -/
def emitComps (g : Nat → String) : Nat → List Component → List String × Nat
  | k, [] => ([], k)
  | k, c :: cs =>
    let s := footprintBlock c (g k) (g (k + 1)) (g (k + 2)) (g (k + 3))
    let r := emitComps g (k + 4) cs
    (s :: r.1, r.2)

/-- `generate_pcb` (lines 468-663): build the section list in source order
and join with newlines.  The nondeterministic `uuid.uuid4()` of the source
is the injectable supply `g`, consumed left to right (index 0 first). -/
def generate_pcb (g : Nat → String) (components : List Component)
    (board_width board_height : ℚ) (num_layers : Nat) : String :=
  let outline := outlineBlock board_width board_height (g 0)
  let hr := emitHoles g 1 0 (mountPositions board_width board_height)
  let cr := emitComps g hr.2 components
  String.intercalate "\n"
    ([headerSection board_width board_height num_layers, netsSection, outline]
      ++ hr.1 ++ cr.1 ++ [")"])

theorem classify_filter_sum (comps : List Component) :
    (comps.filter fun c => classify c.ref = GroupName.supercap_pos).length
      + (comps.filter fun c => classify c.ref = GroupName.supercap_neg).length
      + (comps.filter fun c => classify c.ref = GroupName.connectors).length
      + (comps.filter fun c => classify c.ref = GroupName.mcu).length
      + (comps.filter fun c => classify c.ref = GroupName.sensing).length
      + (comps.filter fun c => classify c.ref = GroupName.discharge).length
      + (comps.filter fun c => classify c.ref = GroupName.charging).length
      + (comps.filter fun c => classify c.ref = GroupName.power).length
      + (comps.filter fun c => classify c.ref = GroupName.passives).length
      = comps.length := by
  induction comps with
  | nil => simp
  | cons c cs ih =>
    simp only [List.filter_cons, List.length_cons]
    cases hc : classify c.ref <;> simp [hc] <;> omega

/-- Claim C1: `group_components` assigns each record to exactly one of the
nine groups; each group is the input filtered by the classification chain
(hence keeps extraction order, witnessed by the sublist fact), the nine
sizes sum to the record count, and no record lands in two groups. -/
theorem claim_C1_partition (comps : List Component) :
    (∀ g : GroupName,
        (group_components comps).get g = comps.filter fun c => classify c.ref = g) ∧
    (((group_components comps).get .supercap_pos).length
      + ((group_components comps).get .supercap_neg).length
      + ((group_components comps).get .connectors).length
      + ((group_components comps).get .mcu).length
      + ((group_components comps).get .sensing).length
      + ((group_components comps).get .discharge).length
      + ((group_components comps).get .charging).length
      + ((group_components comps).get .power).length
      + ((group_components comps).get .passives).length
      = comps.length) ∧
    (∀ (c : Component) (g1 g2 : GroupName),
        c ∈ (group_components comps).get g1 → c ∈ (group_components comps).get g2 →
        g1 = g2) ∧
    (∀ g : GroupName, List.Sublist ((group_components comps).get g) comps) := by
  refine ⟨group_components_get comps, ?_, ?_, ?_⟩
  · simp only [group_components_get]
    exact classify_filter_sum comps
  · intro c g1 g2 h1 h2
    rw [group_components_get] at h1 h2
    have e1 := (List.mem_filter.mp h1).2
    have e2 := (List.mem_filter.mp h2).2
    simp only [decide_eq_true_eq] at e1 e2
    rw [← e1, ← e2]
  · intro g
    rw [group_components_get]
    exact List.filter_sublist comps

theorem classifyChain_ne_supercap (ref : String) :
    classifyChain ref ≠ .supercap_pos ∧ classifyChain ref ≠ .supercap_neg := by
  unfold classifyChain
  split_ifs <;> simp

theorem classify_supercap_iff (ref : String) (n : Int)
    (h1 : "C".data.isPrefixOf ref.data) (h2 : 1 < ref.data.length)
    (h3 : pyIntParse (String.mk (ref.data.drop 1)) = some n) :
    (classify ref = .supercap_pos ↔ 101 ≤ n ∧ n ≤ 130) ∧
    (classify ref = .supercap_neg ↔ 131 ≤ n ∧ n ≤ 160) := by
  have hsc : supercapGroup ref =
      (if 101 ≤ n ∧ n ≤ 130 then some .supercap_pos
       else if 131 ≤ n ∧ n ≤ 160 then some .supercap_neg else none) := by
    unfold supercapGroup
    rw [if_pos ⟨h1, h2⟩, h3]
  have hch := classifyChain_ne_supercap ref
  unfold classify
  rw [hsc]
  by_cases ha : 101 ≤ n ∧ n ≤ 130
  · rw [if_pos ha]
    constructor
    · simp [ha]
    · simp
      omega
  · rw [if_neg ha]
    by_cases hb : 131 ≤ n ∧ n ≤ 160
    · rw [if_pos hb]
      constructor
      · simp
        omega
      · simp [hb]
    · rw [if_neg hb]
      exact ⟨iff_of_false hch.1 ha, iff_of_false hch.2 hb⟩

/-- A supercap record used in concrete instances. -/
def capComp (r : String) : Component :=
  { ref := r, value := "", footprint := "CP:D10", lib_id := "Device:C" }

/-- Claim C5: a record `C<N>` with an integer suffix is grouped into
supercap_pos exactly when `101 ≤ N ≤ 130` and into supercap_neg exactly
when `131 ≤ N ≤ 160`; at the boundary, C130 is positive and C131 negative. -/
theorem claim_C5_supercap_ranges :
    (∀ (comps : List Component) (c : Component) (n : Int),
        c ∈ comps → "C".data.isPrefixOf c.ref.data → 1 < c.ref.data.length →
        pyIntParse (String.mk (c.ref.data.drop 1)) = some n →
        ((c ∈ (group_components comps).get .supercap_pos ↔ 101 ≤ n ∧ n ≤ 130) ∧
         (c ∈ (group_components comps).get .supercap_neg ↔ 131 ≤ n ∧ n ≤ 160))) ∧
    classify "C130" = .supercap_pos ∧ classify "C131" = .supercap_neg := by
  refine ⟨?_, by decide, by decide⟩
  intro comps c n hmem hpre hlen hparse
  have hiff := classify_supercap_iff c.ref n hpre hlen hparse
  rw [group_components_get, group_components_get]
  constructor
  · rw [← hiff.1]
    simp [List.mem_filter, hmem]
  · rw [← hiff.2]
    simp [List.mem_filter, hmem]

theorem claim_C5_witness :
    (capComp "C105" ∈ [capComp "C105"] ∧
     "C".data.isPrefixOf (capComp "C105").ref.data ∧
     1 < (capComp "C105").ref.data.length ∧
     pyIntParse (String.mk ((capComp "C105").ref.data.drop 1)) = some 105) ∧
    ((capComp "C105" ∈ (group_components [capComp "C105"]).get .supercap_pos ↔
        101 ≤ (105 : Int) ∧ (105 : Int) ≤ 130) ∧
     (capComp "C105" ∈ (group_components [capComp "C105"]).get .supercap_neg ↔
        131 ≤ (105 : Int) ∧ (105 : Int) ≤ 160)) :=
  ⟨⟨by decide, by decide, by decide, by decide⟩,
   claim_C5_supercap_ranges.1 [capComp "C105"] (capComp "C105") 105
     (by decide) (by decide) (by decide) (by decide)⟩

/-- Claim C6: the scanner and the tree builder are total functions (their
types here witness that no input raises): an unterminated quoted string
consumes the whole remaining input into one token, and running out of
tokens mid-node yields the node with the children seen so far, never an
error. -/
theorem claim_C6_lenient :
    (∀ cs : List Char, '"' ∉ cs → tokenizeL ('"' :: cs) = [cs]) ∧
    (∀ (tag : String) (ts : List String), (∀ t ∈ ts, t ≠ "(" ∧ t ≠ ")") →
      parse_tokens ("(" :: tag :: ts) = (SExp.mk tag (ts.map SExp.atom) none, [])) := by
  constructor
  · intro cs h
    rw [tokenizeL_quote, scanQuoted_no_quote cs h]
    simp [tokenizeL, tokenizeF]
  · intro tag ts hall
    show parseChildrenF (ts.length + 1) tag [] ts = _
    rw [parseChildrenF_atoms ts hall (ts.length + 1) (by omega) tag []]
    simp

theorem claim_C6_witness :
    ('"' ∉ "abc".data ∧ tokenizeL ('"' :: "abc".data) = ["abc".data]) ∧
    ((∀ t ∈ ["x", "y"], t ≠ "(" ∧ t ≠ ")") ∧
      parse_tokens ["(", "node", "x", "y"] =
        (SExp.mk "node" (["x", "y"].map SExp.atom) none, [])) :=
  ⟨⟨by decide, claim_C6_lenient.1 "abc".data (by decide)⟩,
   ⟨by decide, claim_C6_lenient.2 "node" ["x", "y"] (by decide)⟩⟩

/-- Claim C9: quoting leaves no trace on the token stream — a quoted `(`
tokenizes identically to a bare `(` — and the tree builder therefore treats
it as a structural delimiter: parsing `(a "(" b)` does not give the tree
whose children are the two leaf atoms `(` and `b`. -/
theorem claim_C9_quoting_erased :
    tokenizeL "\"(\"".data = tokenizeL "(".data ∧
    tokenizeL "(a \"(\" b)".data = [['('], ['a'], ['('], ['b'], [')']] ∧
    parse_sexp "(a \"(\" b)" ≠ SExp.mk "a" [SExp.atom "(", SExp.atom "b"] none := by
  refine ⟨by decide, by decide, ?_⟩
  intro h
  have h1 : (parse_sexp "(a \"(\" b)").children.length = 1 := by decide
  rw [h] at h1
  exact absurd h1 (by decide)

/-- Name/value pair of a `property` node: its first two atom values. -/
def pairOf (p : SExp) : Option (String × String) :=
  match p.get_atoms with
  | n :: v :: _ => some (n, v)
  | _ => none

/-- Last-occurrence-wins lookup over (name, value) pairs with a default. -/
def lastOf (name : String) : List (String × String) → String → String
  | [], dflt => dflt
  | p :: ps, dflt => if p.1 = name then lastOf name ps p.2 else lastOf name ps dflt

/-- The (name, value) pairs of a symbol's `property` children, in order. -/
def propPairs (c : SExp) : List (String × String) :=
  (c.find_all "property").filterMap pairOf

/-- The value the property loop leaves for `name`: the last occurrence
wins, the empty string when absent. -/
def lastProp (c : SExp) (name : String) : String := lastOf name (propPairs c) ""

/-- The first atom value of a symbol's first `lib_id` child, if any. -/
def symLibId (c : SExp) : Option String :=
  (c.get "lib_id").bind SExp.get_first_atom

theorem propFold_eq_lastOf :
    ∀ (ps : List SExp) (r v f : String),
      propFold ps (r, v, f) =
        (lastOf "Reference" (ps.filterMap pairOf) r,
         lastOf "Value" (ps.filterMap pairOf) v,
         lastOf "Footprint" (ps.filterMap pairOf) f) := by
  intro ps
  induction ps with
  | nil => intro r v f; simp [propFold, lastOf]
  | cons p ps ih =>
    intro r v f
    rcases hga : p.get_atoms with _ | ⟨n, _ | ⟨val, rest2⟩⟩
    · rw [propFold.eq_def]
      simp only []
      rw [hga]
      simp only [List.filterMap_cons]
      rw [show pairOf p = none from by simp [pairOf, hga]]
      exact ih r v f
    · rw [propFold.eq_def]
      simp only []
      rw [hga]
      simp only [List.filterMap_cons]
      rw [show pairOf p = none from by simp [pairOf, hga]]
      exact ih r v f
    · rw [propFold.eq_def]
      simp only []
      rw [hga]
      simp only [List.filterMap_cons]
      rw [show pairOf p = some (n, val) from by simp [pairOf, hga]]
      simp only [lastOf]
      by_cases h1 : n = "Reference"
      · subst h1
        rw [if_pos rfl, if_pos rfl,
          if_neg (by decide : ¬("Reference" = "Value")),
          if_neg (by decide : ¬("Reference" = "Footprint")), ih val v f]
      · by_cases h2 : n = "Value"
        · subst h2
          rw [if_neg (by decide : ¬("Value" = "Reference")), if_pos rfl,
            if_neg (by decide : ¬("Value" = "Reference")), if_pos rfl,
            if_neg (by decide : ¬("Value" = "Footprint")), ih r val f]
        · by_cases h3 : n = "Footprint"
          · subst h3
            rw [if_neg (by decide : ¬("Footprint" = "Reference")),
              if_neg (by decide : ¬("Footprint" = "Value")),
              if_neg (by decide : ¬("Footprint" = "Reference")),
              if_neg (by decide : ¬("Footprint" = "Value")),
              if_pos rfl, if_pos rfl, ih r v val]
          · rw [if_neg h1, if_neg h2, if_neg h3, if_neg h1, if_neg h2, if_neg h3,
              ih r v f]

/-- Claim C3: the extractor emits a record for a top-level child exactly
when it is a `symbol` (so never inside `lib_symbols`), its first `lib_id`
child has a non-empty first atom not starting with `power:`, and the
last-occurrence-wins Reference and Footprint property values are non-empty;
the record carries those values and the constructed defaults (0,0), 0°,
layer F.Cu.  Failures yield `none` (silently dropped, never an error), and
`filterMap` preserves source order. -/
theorem claim_C3_extractor (doc : SExp) :
    parse_schematic doc = doc.children.filterMap extractSymbol ∧
    ∀ (child : SExp) (r : Component),
      (extractSymbol child = some r ↔
        (child.tag = "symbol" ∧
         ∃ lid : String, symLibId child = some lid ∧ lid ≠ "" ∧
           ¬("power:".data.isPrefixOf lid.data) ∧
           lastProp child "Reference" ≠ "" ∧
           lastProp child "Footprint" ≠ "" ∧
           r = { ref := lastProp child "Reference", value := lastProp child "Value",
                 footprint := lastProp child "Footprint", lib_id := lid,
                 x := 0, y := 0, rotation := 0, layer := "F.Cu" })) := by
  refine ⟨rfl, ?_⟩
  intro child r
  unfold extractSymbol
  by_cases htag : child.tag = "symbol"
  · have hls : ¬(child.tag = "lib_symbols") := by rw [htag]; decide
    rw [if_neg hls, if_neg (by simp [htag])]
    cases hg : child.get "lib_id" with
    | none => simp [symLibId, hg, htag]
    | some lidNode =>
      cases hfa : lidNode.get_first_atom with
      | none => simp [symLibId, hg, hfa, htag]
      | some lid =>
        have hsym : symLibId child = some lid := by simp [symLibId, hg, hfa]
        simp only []
        rw [hfa]
        simp only []
        by_cases hempty : lid = ""
        · subst hempty
          rw [if_pos rfl]
          simp only [hsym, htag, true_and]
          constructor
          · intro h; exact absurd h (by simp)
          · rintro ⟨lid2, hl2, hne, -⟩
            exact absurd (Option.some.injEq _ _ ▸ hl2) (by simpa using fun h => hne h.symm)
        · rw [if_neg hempty]
          by_cases hpow : "power:".data.isPrefixOf lid.data
          · rw [if_pos hpow]
            simp only [htag, true_and, hsym]
            constructor
            · intro h; exact absurd h (by simp)
            · rintro ⟨lid2, hl2, -, hnp, -⟩
              have : lid2 = lid := by simpa using hl2.symm
              subst this
              exact absurd hpow hnp
          · rw [if_neg hpow]
            simp only [propFold_eq_lastOf]
            have hr : lastOf "Reference" ((child.find_all "property").filterMap pairOf) "" =
                lastProp child "Reference" := rfl
            have hv : lastOf "Value" ((child.find_all "property").filterMap pairOf) "" =
                lastProp child "Value" := rfl
            have hf : lastOf "Footprint" ((child.find_all "property").filterMap pairOf) "" =
                lastProp child "Footprint" := rfl
            rw [hr, hv, hf]
            by_cases href : lastProp child "Reference" = ""
            · rw [if_pos href]
              simp only [htag, true_and, hsym]
              constructor
              · intro h; exact absurd h (by simp)
              · rintro ⟨lid2, hl2, -, -, hne, -⟩
                exact absurd href hne
            · rw [if_neg href]
              by_cases hfp : lastProp child "Footprint" = ""
              · rw [if_pos hfp]
                simp only [htag, true_and, hsym]
                constructor
                · intro h; exact absurd h (by simp)
                · rintro ⟨lid2, hl2, -, -, -, hne, -⟩
                  exact absurd hfp hne
              · rw [if_neg hfp]
                simp only [Option.some.injEq, htag, true_and, hsym]
                constructor
                · intro h
                  exact ⟨lid, rfl, hempty, hpow, href, hfp, h.symm⟩
                · rintro ⟨lid2, hl2, -, -, -, -, hr2⟩
                  have : lid2 = lid := by simpa using hl2.symm
                  subst this
                  exact hr2.symm
  · by_cases hls : child.tag = "lib_symbols"
    · rw [if_pos hls]
      simp [htag]
    · rw [if_neg hls, if_pos htag]
      simp [htag]

theorem classify_supercap_isSome (ref : String)
    (h : classify ref = .supercap_pos ∨ classify ref = .supercap_neg) :
    (pyIntParse (String.mk (ref.data.drop 1))).isSome = true := by
  unfold classify at h
  cases hsc : supercapGroup ref with
  | none =>
    rw [hsc] at h
    simp only [] at h
    rcases h with h | h
    · exact absurd h (classifyChain_ne_supercap ref).1
    · exact absurd h (classifyChain_ne_supercap ref).2
  | some g =>
    unfold supercapGroup at hsc
    by_cases hcnd : "C".data.isPrefixOf ref.data ∧ 1 < ref.data.length
    · rw [if_pos hcnd] at hsc
      cases hp : pyIntParse (String.mk (ref.data.drop 1)) with
      | none => rw [hp] at hsc; simp at hsc
      | some n => simp [hp]
    · rw [if_neg hcnd] at hsc
      exact absurd hsc (by simp)

theorem scSortable_group_components (comps : List Component) :
    scSortable (group_components comps) = true := by
  unfold scSortable
  rw [List.all_eq_true]
  intro c hc
  rw [List.mem_append] at hc
  rcases hc with hc | hc
  · have hmem : c ∈ (group_components comps).get .supercap_pos := hc
    rw [group_components_get] at hmem
    have hcl : classify c.ref = .supercap_pos := by simpa using (List.mem_filter.mp hmem).2
    exact classify_supercap_isSome c.ref (Or.inl hcl)
  · have hmem : c ∈ (group_components comps).get .supercap_neg := hc
    rw [group_components_get] at hmem
    have hcl : classify c.ref = .supercap_neg := by simpa using (List.mem_filter.mp hmem).2
    exact classify_supercap_isSome c.ref (Or.inr hcl)

theorem mem_idxMap_rotation {f : Nat → Component → Component} (r : ℚ)
    (hf : ∀ i c, (f i c).rotation = r) :
    ∀ (j : Nat) (l : List Component), ∀ c ∈ idxMap f j l, c.rotation = r := by
  intro j l
  induction l generalizing j with
  | nil => intro c hc; simp [idxMap] at hc
  | cons a l ih =>
    intro c hc
    rw [idxMap] at hc
    rcases List.mem_cons.mp hc with rfl | hc
    · exact hf j a
    · exact ih (j + 1) c hc

theorem placeCompact_rotation (gs : Groups) (w m : ℚ) :
    ∀ g : GroupName, ∀ c ∈ (placeCompact gs w m).get g,
      c.rotation = 0 ∨ c.rotation = 270 := by
  intro g c hc
  cases g <;> simp only [placeCompact, Groups.get] at hc
  case supercap_pos => exact Or.inl (mem_idxMap_rotation 0 (fun i c => rfl) 0 _ c hc)
  case supercap_neg => exact Or.inl (mem_idxMap_rotation 0 (fun i c => rfl) 0 _ c hc)
  case connectors => exact Or.inl (mem_idxMap_rotation 0 (fun i c => rfl) 0 _ c hc)
  case mcu =>
    obtain ⟨a, -, rfl⟩ := List.mem_map.mp hc
    exact Or.inl rfl
  case sensing => exact Or.inl (mem_idxMap_rotation 0 (fun i c => rfl) 0 _ c hc)
  case discharge => exact Or.inr (mem_idxMap_rotation 270 (fun i c => rfl) 0 _ c hc)
  case charging => exact Or.inl (mem_idxMap_rotation 0 (fun i c => rfl) 0 _ c hc)
  case power =>
    obtain ⟨a, -, rfl⟩ := List.mem_map.mp hc
    exact Or.inl rfl
  case passives => exact Or.inl (mem_idxMap_rotation 0 (fun i c => rfl) 0 _ c hc)

theorem placeStandard_rotation (gs : Groups) (w h m : ℚ) :
    ∀ g : GroupName, ∀ c ∈ (placeStandard gs w h m).get g,
      c.rotation = 0 ∨ c.rotation = 270 := by
  intro g c hc
  cases g <;> simp only [placeStandard, Groups.get] at hc
  case supercap_pos => exact Or.inl (mem_idxMap_rotation 0 (fun i c => rfl) 0 _ c hc)
  case supercap_neg => exact Or.inl (mem_idxMap_rotation 0 (fun i c => rfl) 0 _ c hc)
  case connectors => exact Or.inl (mem_idxMap_rotation 0 (fun i c => rfl) 0 _ c hc)
  case mcu =>
    obtain ⟨a, -, rfl⟩ := List.mem_map.mp hc
    exact Or.inl rfl
  case sensing => exact Or.inl (mem_idxMap_rotation 0 (fun i c => rfl) 0 _ c hc)
  case discharge => exact Or.inr (mem_idxMap_rotation 270 (fun i c => rfl) 0 _ c hc)
  case charging => exact Or.inl (mem_idxMap_rotation 0 (fun i c => rfl) 0 _ c hc)
  case power =>
    obtain ⟨a, -, rfl⟩ := List.mem_map.mp hc
    exact Or.inl rfl
  case passives => exact Or.inl (mem_idxMap_rotation 0 (fun i c => rfl) 0 _ c hc)

/-- Claim C8: whenever `place_components` runs to completion on a group
partition (under either policy), every record's rotation is one of
0, 90, 180 or 270 degrees — the engine only ever assigns 0 or 270, and the
constructed default is 0; and on the partition produced by
`group_components` it always runs to completion. -/
theorem claim_C8_rotations :
    (∀ (gs : Groups) (w h : ℚ) (compact : Bool),
      scSortable gs = true →
      ∃ placed : Groups,
        place_components gs w h compact = .ok placed ∧
        ∀ g : GroupName, ∀ c ∈ placed.get g,
          c.rotation = 0 ∨ c.rotation = 90 ∨ c.rotation = 180 ∨ c.rotation = 270) ∧
    (∀ comps : List Component, scSortable (group_components comps) = true) := by
  constructor
  · intro gs w h compact hs
    unfold place_components
    rw [if_neg (by simp [hs])]
    cases compact with
    | true =>
      refine ⟨placeCompact gs w 4, by simp, ?_⟩
      intro g c hc
      rcases placeCompact_rotation gs w 4 g c hc with h2 | h2
      · exact Or.inl h2
      · exact Or.inr (Or.inr (Or.inr h2))
    | false =>
      refine ⟨placeStandard gs w h 5, by simp, ?_⟩
      intro g c hc
      rcases placeStandard_rotation gs w h 5 g c hc with h2 | h2
      · exact Or.inl h2
      · exact Or.inr (Or.inr (Or.inr h2))
  · exact scSortable_group_components

instance : IsTotal Component scLe := ⟨fun a b => Int.le_total (scKey a) (scKey b)⟩

instance : IsTrans Component scLe := ⟨fun _ _ _ hab hbc => le_trans hab hbc⟩

/-- The per-index supercap grid assignment of the claim: 10 columns,
row i/10, column i%10, at origin (ox, oy) with the given pitch, rotation 0. -/
def scGridUpdate (ox oy pitch : ℚ) (i : Nat) (c : Component) : Component :=
  { c with x := ox + ((i % 10 : Nat) : ℚ) * pitch,
           y := oy + ((i / 10 : Nat) : ℚ) * pitch,
           rotation := 0 }

/-- Claim C4: on the supercap banks the layout engine sorts by the numeric
reference suffix ascending (a permutation of the group, sorted under the
key order, stable by construction) and assigns sorted index `i` the grid
position `(ox + (i mod 10)·pitch, oy + (i div 10)·pitch)` with rotation 0,
where the pitch is 11 under the compact policy and 12 under the standard
one, at the bank origins (12,12)/(12,49) compact and (30,20)/(30,66)
standard.  Determinism of a re-run is inherent: the embedding is a pure
function of its arguments. -/
theorem claim_C4_supercap_grid (gs : Groups) (w h : ℚ) (compact : Bool)
    (hsort : scSortable gs = true) :
    ∃ placed : Groups,
      place_components gs w h compact = .ok placed ∧
      (List.insertionSort scLe gs.supercap_pos).Perm gs.supercap_pos ∧
      List.Sorted scLe (List.insertionSort scLe gs.supercap_pos) ∧
      (List.insertionSort scLe gs.supercap_neg).Perm gs.supercap_neg ∧
      List.Sorted scLe (List.insertionSort scLe gs.supercap_neg) ∧
      placed.supercap_pos =
        idxMap (scGridUpdate (if compact then 12 else 30) (if compact then 12 else 20)
          (if compact then 11 else 12)) 0 (List.insertionSort scLe gs.supercap_pos) ∧
      placed.supercap_neg =
        idxMap (scGridUpdate (if compact then 12 else 30) (if compact then 49 else 66)
          (if compact then 11 else 12)) 0 (List.insertionSort scLe gs.supercap_neg) := by
  unfold place_components
  rw [if_neg (by simp [hsort])]
  cases compact with
  | true =>
    refine ⟨placeCompact gs w 4, by simp, List.perm_insertionSort scLe _,
      List.sorted_insertionSort scLe _, List.perm_insertionSort scLe _,
      List.sorted_insertionSort scLe _, ?_, ?_⟩
    · simp only [placeCompact, if_true]
      congr 1
      funext i c
      simp only [scGridUpdate]
      norm_num
    · simp only [placeCompact, if_true]
      congr 1
      funext i c
      simp only [scGridUpdate]
      norm_num
  | false =>
    refine ⟨placeStandard gs w h 5, by simp, List.perm_insertionSort scLe _,
      List.sorted_insertionSort scLe _, List.perm_insertionSort scLe _,
      List.sorted_insertionSort scLe _, ?_, ?_⟩
    · simp only [placeStandard, if_false]
      congr 1
      funext i c
      simp only [scGridUpdate]
      norm_num
    · simp only [placeStandard, if_false]
      congr 1
      funext i c
      simp only [scGridUpdate]
      norm_num

/-- A concrete group assignment exercising both supercap banks. -/
def c4gset : Groups :=
  ⟨[capComp "C102", capComp "C101"], [capComp "C131"], [], [], [], [], [], [], []⟩

theorem claim_C4_witness :
    scSortable c4gset = true ∧
    ∃ placed : Groups,
      place_components c4gset 200 120 false = .ok placed ∧
      (List.insertionSort scLe c4gset.supercap_pos).Perm c4gset.supercap_pos ∧
      List.Sorted scLe (List.insertionSort scLe c4gset.supercap_pos) ∧
      (List.insertionSort scLe c4gset.supercap_neg).Perm c4gset.supercap_neg ∧
      List.Sorted scLe (List.insertionSort scLe c4gset.supercap_neg) ∧
      placed.supercap_pos =
        idxMap (scGridUpdate 30 20 12) 0 (List.insertionSort scLe c4gset.supercap_pos) ∧
      placed.supercap_neg =
        idxMap (scGridUpdate 30 66 12) 0 (List.insertionSort scLe c4gset.supercap_neg) :=
  ⟨by decide, claim_C4_supercap_grid c4gset 200 120 false (by decide)⟩

theorem claim_C8_witness :
    scSortable c4gset = true ∧
    ∃ placed : Groups,
      place_components c4gset 160 100 true = .ok placed ∧
      ∀ g : GroupName, ∀ c ∈ placed.get g,
        c.rotation = 0 ∨ c.rotation = 90 ∨ c.rotation = 180 ∨ c.rotation = 270 :=
  ⟨by decide, claim_C8_rotations.1 c4gset 160 100 true (by decide)⟩


theorem scanQuoted_escQ :
    ∀ s : List Char, '\\' ∉ s →
      ∀ rest : List Char, scanQuoted (escQ s ++ '"' :: rest) = (escQ s, rest)
  | [] => by
    intro hb rest
    rw [escQ, List.nil_append, scanQuoted.eq_def]
    simp
  | c :: s => by
    intro hb rest
    have hcb : c ≠ '\\' := by rintro rfl; simp at hb
    have hsb : '\\' ∉ s := fun hm => hb (List.mem_cons_of_mem _ hm)
    have ih := scanQuoted_escQ s hsb rest
    rw [escQ]
    by_cases hcq : c = '"'
    · subst hcq
      rw [if_pos rfl, List.cons_append, List.cons_append, scanQuoted.eq_def]
      simp [ih]
    · rw [if_neg hcq, List.cons_append, scanQuoted.eq_def]
      simp [hcq, hcb, ih]

theorem escQ_length_ge : ∀ s : List Char, s.length ≤ (escQ s).length := by
  intro s
  induction s with
  | nil => simp [escQ]
  | cons c s ih =>
    rw [escQ]
    by_cases h : c = '"'
    · rw [if_pos h]; simp; omega
    · rw [if_neg h]; simp; omega

theorem escQ_length_lt : ∀ s : List Char, '"' ∈ s → s.length < (escQ s).length := by
  intro s
  induction s with
  | nil => simp
  | cons c s ih =>
    intro hm
    rw [escQ]
    by_cases h : c = '"'
    · rw [if_pos h]
      have := escQ_length_ge s
      simp
      omega
    · rw [if_neg h]
      have hm2 : '"' ∈ s := by
        rcases List.mem_cons.mp hm with rfl | hm2
        · exact absurd rfl h
        · exact hm2
      have := ih hm2
      simp
      omega

theorem escQ_eq_self : ∀ s : List Char, '"' ∉ s → escQ s = s := by
  intro s
  induction s with
  | nil => simp [escQ]
  | cons c s ih =>
    intro hm
    have hc : c ≠ '"' := by rintro rfl; simp at hm
    rw [escQ, if_neg hc, ih fun h => hm (List.mem_cons_of_mem _ h)]

/-- The component of the C2 counterexample: a footprint name containing a
double quote. -/
def c2comp : Component :=
  { ref := "R1", value := "1k", footprint := "a\"b", lib_id := "Device:R" }

theorem format_coord_zero : format_coord 0 = "0.0000" := by
  unfold format_coord
  rw [show ((0 : ℚ) * 10000) = 0 from by norm_num]
  decide

set_option maxRecDepth 40000 in
/-- Claim C2 fails as stated: the serializer escapes the quote, but
re-parsing the emitted footprint block recovers the escaped value
`a\"b` with the backslash retained — not the original `a"b`. -/
theorem claim_C2_counterexample :
    escapeQuotes "a\"b" = "a\\\"b" ∧
    (parse_sexp (footprintBlock c2comp "u0" "u1" "u2" "u3")).tag = "footprint" ∧
    (parse_sexp (footprintBlock c2comp "u0" "u1" "u2" "u3")).get_first_atom =
      some "a\\\"b" ∧
    ("a\\\"b" : String) ≠ "a\"b" := by
  have hfx : format_coord c2comp.x = "0.0000" := format_coord_zero
  have hfy : format_coord c2comp.y = "0.0000" := format_coord_zero
  refine ⟨by decide, ?_, ?_, by decide⟩
  · simp only [footprintBlock, hfx, hfy]
    decide
  · simp only [footprintBlock, hfx, hfy]
    decide

/-- Claim C2 amended: a quote in a footprint name is emitted escaped as
backslash-quote, and re-tokenizing the quoted emission yields exactly one
token holding the escaped value — the tokenizer copies the backslash
through as-is, so the original is recovered only when the name contains no
double quote. -/
theorem claim_C2_escape_roundtrip (fp : String) (hb : '\\' ∉ fp.data)
    (rest : List Char) :
    tokenizeL ('"' :: ((escapeQuotes fp).data ++ '"' :: rest)) =
      (escapeQuotes fp).data :: tokenizeL rest ∧
    ((escapeQuotes fp = fp) ↔ '"' ∉ fp.data) := by
  constructor
  · rw [tokenizeL_quote]
    have h : (escapeQuotes fp).data = escQ fp.data := rfl
    rw [h, scanQuoted_escQ fp.data hb rest]
  · constructor
    · intro h hq
      have hd : escQ fp.data = fp.data := congrArg String.data h
      have := escQ_length_lt fp.data hq
      rw [hd] at this
      omega
    · intro hq
      show String.mk (escQ fp.data) = fp
      rw [escQ_eq_self fp.data hq]

theorem claim_C2_witness :
    ('\\' ∉ ("a\"b" : String).data) ∧
    (tokenizeL ('"' :: ((escapeQuotes "a\"b").data ++ '"' :: [])) =
        (escapeQuotes "a\"b").data :: tokenizeL [] ∧
      ((escapeQuotes "a\"b" = "a\"b") ↔ '"' ∉ ("a\"b" : String).data)) :=
  ⟨by decide, claim_C2_escape_roundtrip "a\"b" (by decide) []⟩

theorem mem_of_getLast_some : ∀ (l : List Char) (d : Char), l.getLast? = some d → d ∈ l := by
  intro l
  induction l with
  | nil => intro d h; cases h
  | cons a l ih =>
    intro d h
    match l with
    | [] =>
      simp only [List.getLast?_singleton, Option.some.injEq] at h
      simp [h]
    | b :: t =>
      rw [List.getLast?_cons_cons] at h
      exact List.mem_cons_of_mem a (ih d h)

theorem takeWhile_append_of_break (p : Char → Bool) :
    ∀ l r : List Char, (∃ x ∈ l, p x = false) →
      (l ++ r).takeWhile p = l.takeWhile p ∧
      (l ++ r).dropWhile p = l.dropWhile p ++ r := by
  intro l
  induction l with
  | nil => intro r hx; simp at hx
  | cons a l ih =>
    intro r hx
    by_cases hp : p a
    · have hx2 : ∃ x ∈ l, p x = false := by
        rcases hx with ⟨x, hxm, hxf⟩
        rcases List.mem_cons.mp hxm with rfl | hm
        · rw [hp] at hxf; cases hxf
        · exact ⟨x, hm, hxf⟩
      have hr := ih r hx2
      constructor
      · rw [List.cons_append, List.takeWhile_cons, List.takeWhile_cons, if_pos hp,
          if_pos hp, hr.1]
      · rw [List.cons_append, List.dropWhile_cons, List.dropWhile_cons, if_pos hp,
          if_pos hp, hr.2]
    · constructor
      · rw [List.cons_append, List.takeWhile_cons, List.takeWhile_cons,
          if_neg hp, if_neg hp]
      · rw [List.cons_append, List.dropWhile_cons, List.dropWhile_cons,
          if_neg hp, if_neg hp, List.cons_append]

/-- A concrete glue fragment is composable when it is quote free and, if
non-empty, ends in a token delimiter (parenthesis or basic whitespace). -/
def goodRaw (cs : List Char) : Prop :=
  '"' ∉ cs ∧ (cs ≠ [] → ∃ d, cs.getLast? = some d ∧ atomStop d = true ∧ d ≠ '"')

theorem tokenizeL_raw_append_aux :
    ∀ (n : Nat) (cs : List Char), cs.length = n → goodRaw cs →
      ∀ r : List Char, tokenizeL (cs ++ r) = tokenizeL cs ++ tokenizeL r := by
  intro n
  induction n using Nat.strong_induction_on with
  | _ n ih =>
  intro cs hn hg r
  match cs with
  | [] => simp [tokenizeL, tokenizeF]
  | c :: cs =>
    subst hn
    have hq : c ≠ '"' := by rintro rfl; exact hg.1 (List.mem_cons_self _ _)
    have htail : cs ≠ [] → goodRaw cs := by
      intro hne
      refine ⟨fun hm => hg.1 (List.mem_cons_of_mem _ hm), fun _ => ?_⟩
      obtain ⟨d, hd, hds⟩ := hg.2 (by simp)
      refine ⟨d, ?_, hds⟩
      match cs, hne with
      | b :: t, _ => rw [List.getLast?_cons_cons] at hd; exact hd
    by_cases hp : c = '(' ∨ c = ')'
    · rcases hp with rfl | rfl
      · rw [List.cons_append, tokenizeL_open, tokenizeL_open]
        by_cases hne : cs = []
        · subst hne; simp
        · rw [ih cs.length (by simp) cs rfl (htail hne) r]
          simp
      · rw [List.cons_append, tokenizeL_close, tokenizeL_close]
        by_cases hne : cs = []
        · subst hne; simp
        · rw [ih cs.length (by simp) cs rfl (htail hne) r]
          simp
    · by_cases hw : pyIsSpace c
      · rw [List.cons_append, tokenizeL_ws c hw, tokenizeL_ws c hw]
        by_cases hne : cs = []
        · subst hne; simp
        · exact ih cs.length (by simp) cs rfl (htail hne) r
      · -- atom-start character
        have hwf : pyIsSpace c = false := by simpa using hw
        have hcs_ne : (c :: cs) ≠ [] := by simp
        obtain ⟨d, hdl, hds, hdq⟩ := hg.2 hcs_ne
        have hdm : d ∈ c :: cs := mem_of_getLast_some _ _ hdl
        have hbreak : ∃ x ∈ c :: cs, (fun x => !atomStop x) x = false :=
          ⟨d, hdm, by simp [hds]⟩
        have hsplit := takeWhile_append_of_break (fun x => !atomStop x) (c :: cs) r hbreak
        rw [List.cons_append, tokenizeL_atomStart c (cs ++ r) hp hq hwf]
        rw [show c :: (cs ++ r) = (c :: cs) ++ r from rfl, hsplit.1, hsplit.2]
        rw [tokenizeL_atomStart c cs hp hq hwf]
        rw [List.cons_append]
        congr 1
        -- recurse on the dropWhile suffix
        have hdw_ne : (c :: cs).dropWhile (fun x => !atomStop x) ≠ [] := by
          intro hnil
          have := List.dropWhile_eq_nil_iff.mp hnil d hdm
          simp [hds] at this
        have hdw_sub := @List.dropWhile_sublist Char (c :: cs) (fun x => !atomStop x)
        have hdw_last : ((c :: cs).dropWhile fun x => !atomStop x).getLast? = some d := by
          have hsplit2 := List.takeWhile_append_dropWhile (fun x => !atomStop x) (c :: cs)
          have := @List.getLast?_append Char
            ((c :: cs).takeWhile fun x => !atomStop x)
            ((c :: cs).dropWhile fun x => !atomStop x)
          rw [hsplit2] at this
          rw [hdl] at this
          match hgl : ((c :: cs).dropWhile fun x => !atomStop x).getLast? with
          | some e => rw [hgl] at this; simpa using this.symm
          | none =>
            exact absurd (List.getLast?_eq_none_iff.mp hgl) hdw_ne
        have hdw_len : ((c :: cs).dropWhile fun x => !atomStop x).length < cs.length + 1 := by
          have hc : (!atomStop c) = true := by
            simp only [atomStop, pyIsSpace] at hp hq hw ⊢
            push_neg at hp
            simp_all
          rw [List.dropWhile_cons, if_pos hc]
          have := dropWhile_length_le (fun x => !atomStop x) cs
          omega
        refine ih _ hdw_len _ rfl ⟨?_, fun _ => ⟨d, hdw_last, hds, hdq⟩⟩ r
        intro hm
        exact hg.1 (hdw_sub.subset hm)

theorem tokenizeL_raw_append (cs : List Char) (hg : goodRaw cs) (r : List Char) :
    tokenizeL (cs ++ r) = tokenizeL cs ++ tokenizeL r :=
  tokenizeL_raw_append_aux cs.length cs rfl hg r

/-- One fragment of an f-string: concrete glue text, a quoted interpolation
(plain or quote-escaped), or an unquoted numeric interpolation. -/
inductive Frag where
  | raw (s : String)
  | quo (s : String)
  | quoEsc (s : String)
  | num (s : String)

/-- The text a fragment contributes (quotes around quoted interpolations,
the writer's escaping around `quoEsc`). -/
def Frag.render : Frag → List Char
  | .raw s => s.data
  | .quo s => '"' :: (s.data ++ ['"'])
  | .quoEsc s => '"' :: (escQ s.data ++ ['"'])
  | .num s => s.data

def renderFrags : List Frag → List Char
  | [] => []
  | f :: fs => f.render ++ renderFrags fs

/-- The tokens a fragment list is meant to produce: raw glue tokenizes on
its own, each interpolation is one token. -/
def fragToks : List Frag → List (List Char)
  | [] => []
  | .raw s :: fs => tokenizeL s.data ++ fragToks fs
  | .quo s :: fs => s.data :: fragToks fs
  | .quoEsc s :: fs => escQ s.data :: fragToks fs
  | .num s :: fs => s.data :: fragToks fs

/-- An unquoted interpolation must be followed by glue that starts with a
delimiter, so the atom scan stops. -/
def nextIsStop : List Frag → Prop
  | .raw s :: _ =>
    match s.data with
    | d :: _ => atomStop d = true ∧ d ≠ '"'
    | [] => False
  | _ => False

/-- A non-empty run of atom characters. -/
def atomSafe (cs : List Char) : Prop :=
  cs ≠ [] ∧ ∀ c ∈ cs, atomStop c = false ∧ pyIsSpace c = false

/-- Well-formedness of a fragment list: glue is composable, quoted
interpolations are quote and backslash free (escaped ones backslash free),
numeric interpolations are atom runs followed by a delimiter. -/
def fragsOk : List Frag → Prop
  | [] => True
  | .raw s :: fs => goodRaw s.data ∧ fragsOk fs
  | .quo s :: fs => '"' ∉ s.data ∧ '\\' ∉ s.data ∧ fragsOk fs
  | .quoEsc s :: fs => '\\' ∉ s.data ∧ fragsOk fs
  | .num s :: fs => atomSafe s.data ∧ nextIsStop fs ∧ fragsOk fs

theorem tokenize_renderFrags : ∀ fs : List Frag, fragsOk fs →
    tokenizeL (renderFrags fs) = fragToks fs := by
  intro fs
  induction fs with
  | nil => intro _; rfl
  | cons f fs ih =>
    intro hok
    match f, hok with
    | .raw s, ⟨hraw, hrest⟩ =>
      rw [renderFrags, fragToks, Frag.render, tokenizeL_raw_append s.data hraw, ih hrest]
    | .quo s, ⟨hq, hb, hrest⟩ =>
      rw [renderFrags, fragToks, Frag.render, List.cons_append, List.append_assoc,
        List.singleton_append, tokenizeL_quote, scanQuoted_safe s.data hq hb, ih hrest]
    | .quoEsc s, ⟨hb, hrest⟩ =>
      rw [renderFrags, fragToks, Frag.render, List.cons_append, List.append_assoc,
        List.singleton_append, tokenizeL_quote, scanQuoted_escQ s.data hb, ih hrest]
    | .num s, ⟨hatom, hstop, hrest⟩ =>
      match fs, hstop with
      | .raw s2 :: fs2, hstop =>
        rw [renderFrags, fragToks, Frag.render]
        have hrender : renderFrags (Frag.raw s2 :: fs2) = s2.data ++ renderFrags fs2 := rfl
        rw [hrender]
        have hstop2 : match s2.data with
            | d :: _ => atomStop d = true ∧ d ≠ '"'
            | [] => False := hstop
        cases hs2 : s2.data with
        | nil =>
          rw [hs2] at hstop2
          exact hstop2.elim
        | cons d ds =>
          rw [hs2] at hstop2
          obtain ⟨hd, hdq⟩ := hstop2
          rw [show s.data ++ (d :: ds ++ renderFrags fs2)
              = s.data ++ d :: (ds ++ renderFrags fs2) from by simp]
          rw [tokenizeL_atomRun s.data hatom.1 hatom.2 d hd (ds ++ renderFrags fs2)]
          have heq : tokenizeL (d :: (ds ++ renderFrags fs2)) =
              tokenizeL (renderFrags (Frag.raw s2 :: fs2)) := by
            rw [hrender, hs2]
            simp
          rw [heq, ih hrest]

theorem digitChar10_props (m : Nat) (h : m < 10) :
    atomStop (Char.ofNat (48 + m)) = false ∧ pyIsSpace (Char.ofNat (48 + m)) = false ∧
      (Char.ofNat (48 + m)).isDigit = true := by
  interval_cases m <;> exact (by decide)

theorem digitChar10_safe (n : Nat) :
    atomStop (digitChar10 n) = false ∧ pyIsSpace (digitChar10 n) = false := by
  have h := digitChar10_props (n % 10) (Nat.mod_lt _ (by norm_num))
  exact ⟨h.1, h.2.1⟩

theorem digitChar10_isDigit (n : Nat) : (digitChar10 n).isDigit = true :=
  (digitChar10_props (n % 10) (Nat.mod_lt _ (by norm_num))).2.2

theorem natDigitsGo_chars (P : Char → Prop) (hdigit : ∀ m : Nat, P (digitChar10 m)) :
    ∀ (fuel n : Nat) (acc : List Char), (∀ c ∈ acc, P c) →
      ∀ c ∈ natDigitsGo fuel n acc, P c := by
  intro fuel
  induction fuel with
  | zero => intro n acc hacc c hc; exact hacc c hc
  | succ f ih =>
    intro n acc hacc c hc
    rw [natDigitsGo] at hc
    by_cases hn : n < 10
    · rw [if_pos hn] at hc
      rcases List.mem_cons.mp hc with rfl | hc
      · exact hdigit n
      · exact hacc c hc
    · rw [if_neg hn] at hc
      refine ih (n / 10) _ ?_ c hc
      intro x hx
      rcases List.mem_cons.mp hx with rfl | hx
      · exact hdigit n
      · exact hacc x hx

theorem natDigitsGo_ne_nil :
    ∀ (fuel n : Nat) (acc : List Char), acc ≠ [] → natDigitsGo fuel n acc ≠ [] := by
  intro fuel
  induction fuel with
  | zero => intro n acc h; exact h
  | succ f ih =>
    intro n acc h
    rw [natDigitsGo]
    by_cases hn : n < 10
    · rw [if_pos hn]; simp
    · rw [if_neg hn]
      exact ih (n / 10) _ (by simp)

/-- Atom-run characters: never a delimiter, never whitespace. -/
def safeChar (c : Char) : Prop := atomStop c = false ∧ pyIsSpace c = false

theorem natRepr_safe (n : Nat) : ∀ c ∈ (natRepr n).data, safeChar c := by
  intro c hc
  exact natDigitsGo_chars safeChar (fun m => digitChar10_safe m) (n + 1) n []
    (by simp) c hc

theorem natRepr_ne_nil (n : Nat) : (natRepr n).data ≠ [] := by
  show natDigitsGo (n + 1) n [] ≠ []
  rw [natDigitsGo]
  by_cases hn : n < 10
  · rw [if_pos hn]; simp
  · rw [if_neg hn]
    exact natDigitsGo_ne_nil n (n / 10) _ (by simp)

theorem intRepr_safe (i : Int) : ∀ c ∈ (intRepr i).data, safeChar c := by
  intro c hc
  rw [intRepr, String.data_append] at hc
  rcases List.mem_append.mp hc with hc | hc
  · by_cases hi : i < 0
    · rw [if_pos hi] at hc
      have : c = '-' := by simpa using hc
      subst this
      exact ⟨by decide, by decide⟩
    · rw [if_neg hi] at hc
      simp at hc
  · exact natRepr_safe _ c hc

theorem intRepr_ne_nil (i : Int) : (intRepr i).data ≠ [] := by
  rw [intRepr, String.data_append]
  intro h
  exact natRepr_ne_nil i.natAbs (List.append_eq_nil.mp h).2

theorem frac4_safe (n : Nat) : ∀ c ∈ (frac4 n).data, safeChar c := by
  intro c hc
  have : (frac4 n).data = [digitChar10 (n / 1000), digitChar10 (n / 100),
      digitChar10 (n / 10), digitChar10 n] := rfl
  rw [this] at hc
  simp only [List.mem_cons, List.not_mem_nil, or_false] at hc
  rcases hc with rfl | rfl | rfl | rfl <;> exact digitChar10_safe _

theorem format_coord_atomSafe (q : ℚ) : atomSafe (format_coord q).data := by
  constructor
  · rw [format_coord, String.data_append, String.data_append, String.data_append]
    intro h
    have h2 := (List.append_eq_nil.mp h).1
    have h3 := (List.append_eq_nil.mp h2).1
    have h4 := (List.append_eq_nil.mp h3).2
    exact natRepr_ne_nil _ h4
  · intro c hc
    rw [format_coord, String.data_append, String.data_append, String.data_append] at hc
    rcases List.mem_append.mp hc with hc | hc
    · rcases List.mem_append.mp hc with hc | hc
      · rcases List.mem_append.mp hc with hc | hc
        · by_cases hneg : ratRound (q * 10000) < 0
          · rw [if_pos hneg] at hc
            have : c = '-' := by simpa using hc
            subst this
            exact ⟨by decide, by decide⟩
          · rw [if_neg hneg] at hc
            simp at hc
        · exact natRepr_safe _ c hc
      · have : c = '.' := by simpa using hc
        subst this
        exact ⟨by decide, by decide⟩
    · exact frac4_safe _ c hc

theorem pyNumRepr_atomSafe (q : ℚ) : atomSafe (pyNumRepr q).data := by
  rw [pyNumRepr]
  by_cases h : q.den = 1
  · rw [if_pos h]
    exact ⟨intRepr_ne_nil q.num, fun c hc => intRepr_safe q.num c hc⟩
  · rw [if_neg h]
    constructor
    · rw [String.data_append, String.data_append]
      intro hnil
      have h2 := (List.append_eq_nil.mp hnil).1
      exact intRepr_ne_nil q.num (List.append_eq_nil.mp h2).1
    · intro c hc
      rw [String.data_append, String.data_append] at hc
      rcases List.mem_append.mp hc with hc | hc
      · rcases List.mem_append.mp hc with hc | hc
        · exact intRepr_safe _ c hc
        · have : c = '/' := by simpa using hc
          subst this
          exact ⟨by decide, by decide⟩
      · exact natRepr_safe _ c hc

/-- The f-string structure of the footprint block (lines 634-658): glue
text, quoted interpolations, and the three unquoted numeric fields. -/
def fpFrags (c : Component) (u1 u2 u3 u4 : String) : List Frag :=
  [.raw "\n  (footprint ", .quoEsc c.footprint,
   .raw "\n    (layer ", .quo c.layer,
   .raw ")\n    (uuid ", .quo u1,
   .raw ")\n    (at ", .num (format_coord c.x), .raw " ",
   .num (format_coord c.y), .raw " ", .num (pyNumRepr c.rotation),
   .raw ")\n    (property ", .quo "Reference", .raw " ", .quo c.ref,
   .raw "\n      (at 0 -2 0)\n      (layer ", .quo "F.SilkS",
   .raw ")\n      (uuid ", .quo u2,
   .raw ")\n      (effects (font (size 0.8 0.8) (thickness 0.12)))\n    )\n    (property ",
   .quo "Value", .raw " ", .quo c.value,
   .raw "\n      (at 0 2 0)\n      (layer ", .quo "F.Fab",
   .raw ")\n      (uuid ", .quo u3,
   .raw ")\n      (effects (font (size 0.8 0.8) (thickness 0.12)))\n    )\n    (property ",
   .quo "Footprint", .raw " ", .quoEsc c.footprint,
   .raw "\n      (at 0 0 0)\n      (layer ", .quo "F.Fab",
   .raw ")\n      (hide yes)\n      (uuid ", .quo u4,
   .raw ")\n      (effects (font (size 1 1) (thickness 0.15)))\n    )\n  )"]

set_option maxRecDepth 8000 in
theorem footprintBlock_data (c : Component) (u1 u2 u3 u4 : String) :
    (footprintBlock c u1 u2 u3 u4).data = renderFrags (fpFrags c u1 u2 u3 u4) := by
  simp only [footprintBlock]
  rw [show ("\n  (footprint \"" : String) = "\n  (footprint " ++ "\"" from by decide]
  rw [show ("\"\n    (layer \"" : String) = "\"" ++ "\n    (layer " ++ "\"" from by decide]
  rw [show ("\")\n    (uuid \"" : String) = "\"" ++ ")\n    (uuid " ++ "\"" from by decide]
  rw [show ("\")\n    (at " : String) = "\"" ++ ")\n    (at " from by decide]
  rw [show (")\n    (property \"Reference\" \"" : String)
      = ")\n    (property " ++ "\"" ++ "Reference" ++ "\"" ++ " " ++ "\"" from by decide]
  rw [show ("\"\n      (at 0 -2 0)\n      (layer \"F.SilkS\")\n      (uuid \"" : String)
      = "\"" ++ "\n      (at 0 -2 0)\n      (layer " ++ "\"" ++ "F.SilkS" ++ "\""
        ++ ")\n      (uuid " ++ "\"" from by decide]
  rw [show ("\")\n      (effects (font (size 0.8 0.8) (thickness 0.12)))\n    )\n    (property \"Value\" \"" : String)
      = "\"" ++ ")\n      (effects (font (size 0.8 0.8) (thickness 0.12)))\n    )\n    (property "
        ++ "\"" ++ "Value" ++ "\"" ++ " " ++ "\"" from by decide]
  rw [show ("\"\n      (at 0 2 0)\n      (layer \"F.Fab\")\n      (uuid \"" : String)
      = "\"" ++ "\n      (at 0 2 0)\n      (layer " ++ "\"" ++ "F.Fab" ++ "\""
        ++ ")\n      (uuid " ++ "\"" from by decide]
  rw [show ("\")\n      (effects (font (size 0.8 0.8) (thickness 0.12)))\n    )\n    (property \"Footprint\" \"" : String)
      = "\"" ++ ")\n      (effects (font (size 0.8 0.8) (thickness 0.12)))\n    )\n    (property "
        ++ "\"" ++ "Footprint" ++ "\"" ++ " " ++ "\"" from by decide]
  rw [show ("\"\n      (at 0 0 0)\n      (layer \"F.Fab\")\n      (hide yes)\n      (uuid \"" : String)
      = "\"" ++ "\n      (at 0 0 0)\n      (layer " ++ "\"" ++ "F.Fab" ++ "\""
        ++ ")\n      (hide yes)\n      (uuid " ++ "\"" from by decide]
  rw [show ("\")\n      (effects (font (size 1 1) (thickness 0.15)))\n    )\n  )" : String)
      = "\"" ++ ")\n      (effects (font (size 1 1) (thickness 0.15)))\n    )\n  )" from by decide]
  simp only [fpFrags, renderFrags, Frag.render, String.data_append, List.append_assoc,
    List.append_nil, List.cons_append, List.nil_append]
  simp only [show (escapeQuotes c.footprint).data = escQ c.footprint.data from rfl]

theorem goodRaw_of_last (cs : List Char) (d : Char) (h1 : '"' ∉ cs)
    (h2 : cs.getLast? = some d) (h3 : atomStop d = true) (h4 : d ≠ '"') : goodRaw cs :=
  ⟨h1, fun _ => ⟨d, h2, h3, h4⟩⟩

/-- The token sequence a well-formed footprint block is meant to carry:
the footprint name escaped, every interpolated text its own quoted token. -/
def wfFootprintToks (c : Component) (u1 u2 u3 u4 : String) : List (List Char) :=
  [['('], "footprint".data, escQ c.footprint.data, ['('], "layer".data, c.layer.data, [')'],
   ['('], "uuid".data, u1.data, [')'], ['('], "at".data, (format_coord c.x).data,
   (format_coord c.y).data, (pyNumRepr c.rotation).data, [')'], ['('], "property".data,
   "Reference".data, c.ref.data, ['('], "at".data, "0".data, "-2".data, "0".data, [')'], ['('],
   "layer".data, "F.SilkS".data, [')'], ['('], "uuid".data, u2.data, [')'], ['('],
   "effects".data, ['('], "font".data, ['('], "size".data, "0.8".data, "0.8".data, [')'],
   ['('], "thickness".data, "0.12".data, [')'], [')'], [')'], [')'], ['('], "property".data,
   "Value".data, c.value.data, ['('], "at".data, "0".data, "2".data, "0".data, [')'], ['('],
   "layer".data, "F.Fab".data, [')'], ['('], "uuid".data, u3.data, [')'], ['('],
   "effects".data, ['('], "font".data, ['('], "size".data, "0.8".data, "0.8".data, [')'],
   ['('], "thickness".data, "0.12".data, [')'], [')'], [')'], [')'], ['('], "property".data,
   "Footprint".data, escQ c.footprint.data, ['('], "at".data, "0".data, "0".data, "0".data,
   [')'], ['('], "layer".data, "F.Fab".data, [')'], ['('], "hide".data, "yes".data, [')'],
   ['('], "uuid".data, u4.data, [')'], ['('], "effects".data, ['('], "font".data, ['('],
   "size".data, "1".data, "1".data, [')'], ['('], "thickness".data, "0.15".data, [')'], [')'],
   [')'], [')'], [')']]

theorem fpFrags_ok (c : Component) (u1 u2 u3 u4 : String)
    (hfp : '\\' ∉ c.footprint.data)
    (hlay : '"' ∉ c.layer.data) (hlayb : '\\' ∉ c.layer.data)
    (href : '"' ∉ c.ref.data) (hrefb : '\\' ∉ c.ref.data)
    (hval : '"' ∉ c.value.data) (hvalb : '\\' ∉ c.value.data)
    (hu1 : '"' ∉ u1.data) (hu1b : '\\' ∉ u1.data)
    (hu2 : '"' ∉ u2.data) (hu2b : '\\' ∉ u2.data)
    (hu3 : '"' ∉ u3.data) (hu3b : '\\' ∉ u3.data)
    (hu4 : '"' ∉ u4.data) (hu4b : '\\' ∉ u4.data) :
    fragsOk (fpFrags c u1 u2 u3 u4) :=
  ⟨goodRaw_of_last _ ' ' (by decide) (by decide) (by decide) (by decide),
   hfp,
   goodRaw_of_last _ ' ' (by decide) (by decide) (by decide) (by decide),
   hlay, hlayb,
   goodRaw_of_last _ ' ' (by decide) (by decide) (by decide) (by decide),
   hu1, hu1b,
   goodRaw_of_last _ ' ' (by decide) (by decide) (by decide) (by decide),
   format_coord_atomSafe c.x, (by exact ⟨by decide, by decide⟩),
   goodRaw_of_last _ ' ' (by decide) (by decide) (by decide) (by decide),
   format_coord_atomSafe c.y, (by exact ⟨by decide, by decide⟩),
   goodRaw_of_last _ ' ' (by decide) (by decide) (by decide) (by decide),
   pyNumRepr_atomSafe c.rotation, (by exact ⟨by decide, by decide⟩),
   goodRaw_of_last _ ' ' (by decide) (by decide) (by decide) (by decide),
   (by decide), (by decide),
   goodRaw_of_last _ ' ' (by decide) (by decide) (by decide) (by decide),
   href, hrefb,
   goodRaw_of_last _ ' ' (by decide) (by decide) (by decide) (by decide),
   (by decide), (by decide),
   goodRaw_of_last _ ' ' (by decide) (by decide) (by decide) (by decide),
   hu2, hu2b,
   goodRaw_of_last _ ' ' (by decide) (by decide) (by decide) (by decide),
   (by decide), (by decide),
   goodRaw_of_last _ ' ' (by decide) (by decide) (by decide) (by decide),
   hval, hvalb,
   goodRaw_of_last _ ' ' (by decide) (by decide) (by decide) (by decide),
   (by decide), (by decide),
   goodRaw_of_last _ ' ' (by decide) (by decide) (by decide) (by decide),
   hu3, hu3b,
   goodRaw_of_last _ ' ' (by decide) (by decide) (by decide) (by decide),
   (by decide), (by decide),
   goodRaw_of_last _ ' ' (by decide) (by decide) (by decide) (by decide),
   hfp,
   goodRaw_of_last _ ' ' (by decide) (by decide) (by decide) (by decide),
   (by decide), (by decide),
   goodRaw_of_last _ ' ' (by decide) (by decide) (by decide) (by decide),
   hu4, hu4b,
   goodRaw_of_last _ ')' (by decide) (by decide) (by decide) (by decide),
   trivial⟩

set_option maxRecDepth 8000 in
theorem fragToks_fpFrags (c : Component) (u1 u2 u3 u4 : String) :
    fragToks (fpFrags c u1 u2 u3 u4) = wfFootprintToks c u1 u2 u3 u4 := rfl

/-- The component of the C10 counterexample against the original claim: no
double quote anywhere, but a backslash-only value. -/
def c10bs : Component :=
  { ref := "R1", value := "\\", footprint := "Device:R", lib_id := "L" }

/-- The component of the quote-in-value mis-tokenization. -/
def c10quote : Component :=
  { ref := "R1", value := "10\"k", footprint := "Device:R", lib_id := "L" }

set_option maxRecDepth 100000 in
/-- Claim C10 fails as stated: the record `c10bs` has no double quote in
its reference or value, yet its emitted footprint block does not tokenize
to the intended quoted-string token sequence — the verbatim backslash in
the value eats the closing quote. -/
theorem claim_C10_counterexample :
    ('"' ∉ ("R1" : String).data) ∧ ('"' ∉ ("\\" : String).data) ∧
    tokenizeL (footprintBlock c10bs "u" "u" "u" "u").data ≠
      wfFootprintToks c10bs "u" "u" "u" "u" := by
  have hfx : format_coord c10bs.x = "0.0000" := format_coord_zero
  have hfy : format_coord c10bs.y = "0.0000" := format_coord_zero
  refine ⟨by decide, by decide, ?_⟩
  simp only [footprintBlock, wfFootprintToks, hfx, hfy]
  decide

set_option maxRecDepth 100000 in
/-- Claim C10 amended: `generate_pcb` escapes double quotes only in the
footprint name; reference, value and layer are interpolated verbatim.  When
reference, value, layer and the injected identifiers contain no double
quote and no backslash, and the footprint name contains no backslash, the
emitted block tokenizes exactly to the intended token sequence (the
footprint token carrying the escaped name); a record whose value contains
a double quote mis-tokenizes. -/
theorem claim_C10_escape_only_footprint :
    (∀ (c : Component) (u1 u2 u3 u4 : String),
      '\\' ∉ c.footprint.data →
      '"' ∉ c.layer.data → '\\' ∉ c.layer.data →
      '"' ∉ c.ref.data → '\\' ∉ c.ref.data →
      '"' ∉ c.value.data → '\\' ∉ c.value.data →
      '"' ∉ u1.data → '\\' ∉ u1.data →
      '"' ∉ u2.data → '\\' ∉ u2.data →
      '"' ∉ u3.data → '\\' ∉ u3.data →
      '"' ∉ u4.data → '\\' ∉ u4.data →
      tokenizeL (footprintBlock c u1 u2 u3 u4).data = wfFootprintToks c u1 u2 u3 u4) ∧
    tokenizeL (footprintBlock c10quote "u" "u" "u" "u").data ≠
      wfFootprintToks c10quote "u" "u" "u" "u" := by
  constructor
  · intro c u1 u2 u3 u4 hfp hlay hlayb href hrefb hval hvalb hu1 hu1b hu2 hu2b hu3 hu3b hu4 hu4b
    rw [footprintBlock_data,
      tokenize_renderFrags _ (fpFrags_ok c u1 u2 u3 u4 hfp hlay hlayb href hrefb hval hvalb
        hu1 hu1b hu2 hu2b hu3 hu3b hu4 hu4b),
      fragToks_fpFrags]
  · have hfx : format_coord c10quote.x = "0.0000" := format_coord_zero
    have hfy : format_coord c10quote.y = "0.0000" := format_coord_zero
    simp only [footprintBlock, wfFootprintToks, hfx, hfy]
    decide

/-- A plain record with no special characters anywhere. -/
def c10plain : Component :=
  { ref := "R1", value := "1k", footprint := "Device:R", lib_id := "L" }

theorem claim_C10_witness :
    (('\\' ∉ c10plain.footprint.data) ∧
     ('"' ∉ c10plain.layer.data) ∧ ('\\' ∉ c10plain.layer.data) ∧
     ('"' ∉ c10plain.ref.data) ∧ ('\\' ∉ c10plain.ref.data) ∧
     ('"' ∉ c10plain.value.data) ∧ ('\\' ∉ c10plain.value.data) ∧
     ('"' ∉ ("ua" : String).data) ∧ ('\\' ∉ ("ua" : String).data)) ∧
    tokenizeL (footprintBlock c10plain "ua" "ua" "ua" "ua").data =
      wfFootprintToks c10plain "ua" "ua" "ua" "ua" :=
  ⟨⟨by decide, by decide, by decide, by decide, by decide, by decide, by decide,
    by decide, by decide⟩,
   claim_C10_escape_only_footprint.1 c10plain "ua" "ua" "ua" "ua"
     (by decide) (by decide) (by decide) (by decide) (by decide) (by decide) (by decide)
     (by decide) (by decide) (by decide) (by decide) (by decide) (by decide)
     (by decide) (by decide)⟩

theorem idxMap_succ {a b : Type} (f : Nat → a → b) :
    ∀ (j : Nat) (l : List a), idxMap f (j + 1) l = idxMap (fun i x => f (i + 1) x) j l := by
  intro j l
  induction l generalizing j with
  | nil => rfl
  | cons x l ih => rw [idxMap, idxMap, ih]

theorem emitComps_eq (g : Nat → String) :
    ∀ (cs : List Component) (k : Nat),
      (emitComps g k cs).1 =
        idxMap (fun j c => footprintBlock c (g (k + 4 * j)) (g (k + 4 * j + 1))
          (g (k + 4 * j + 2)) (g (k + 4 * j + 3))) 0 cs := by
  intro cs
  induction cs with
  | nil => intro k; rfl
  | cons c cs ih =>
    intro k
    rw [emitComps]
    simp only []
    rw [ih (k + 4), idxMap, idxMap_succ]
    simp only [Nat.mul_zero, Nat.add_zero]
    simp only [show ∀ i : Nat, k + 4 * (i + 1) = k + 4 + 4 * i from fun i => by ring]

/-- The shared head of the layer tables: everything before the internal
copper layers. -/
def layersPre : String := "  (layers\n    (0 \"F.Cu\" signal)\n"

/-- The two internal copper layers only the 4-layer table carries. -/
def layersIn : String := "    (1 \"In1.Cu\" signal)\n    (2 \"In2.Cu\" signal)\n"

/-- The shared tail of the layer tables. -/
def layersPost : String :=
  "    (31 \"B.Cu\" signal)\n    (32 \"B.Adhes\" user \"B.Adhesive\")\n    (33 \"F.Adhes\" user \"F.Adhesive\")\n    (34 \"B.Paste\" user)\n    (35 \"F.Paste\" user)\n    (36 \"B.SilkS\" user \"B.Silkscreen\")\n    (37 \"F.SilkS\" user \"F.Silkscreen\")\n    (38 \"B.Mask\" user)\n    (39 \"F.Mask\" user)\n    (40 \"Dwgs.User\" user \"User.Drawings\")\n    (41 \"Cmts.User\" user \"User.Comments\")\n    (44 \"Edge.Cuts\" user)\n    (46 \"B.CrtYd\" user \"B.Courtyard\")\n    (47 \"F.CrtYd\" user \"F.Courtyard\")\n    (48 \"B.Fab\" user)\n    (49 \"F.Fab\" user)\n  )"

/-- Claim C7, as one proposition: the serializer's output is exactly the
newline join of header (with layer table and setup), net table, outline,
the four mounting holes at the 4 mm corner insets, one footprint block per
record, and the closing parenthesis, with fresh identifiers drawn in
order; the layer tables differ exactly by the two internal copper layers;
the seven nets appear in id order; and fixed 4-decimal coordinates. -/
def C7Concl (g : Nat → String) (comps : List Component) (w h : ℚ) (nl : Nat) : Prop :=
  generate_pcb g comps w h nl =
    String.intercalate "\n"
      ([headerSection w h nl, netsSection, outlineBlock w h (g 0),
        holeBlock 4 4 0 (g 1) (g 2) (g 3) (g 4) (g 5),
        holeBlock (w - 4) 4 1 (g 6) (g 7) (g 8) (g 9) (g 10),
        holeBlock 4 (h - 4) 2 (g 11) (g 12) (g 13) (g 14) (g 15),
        holeBlock (w - 4) (h - 4) 3 (g 16) (g 17) (g 18) (g 19) (g 20)]
        ++ idxMap (fun j c => footprintBlock c (g (21 + 4 * j)) (g (21 + 4 * j + 1))
             (g (21 + 4 * j + 2)) (g (21 + 4 * j + 3))) 0 comps
        ++ [")"]) ∧
  layer_def 2 = layersPre ++ layersPost ∧
  layer_def 4 = layersPre ++ layersIn ++ layersPost ∧
  netsSection =
    "  (net 0 \"\")\n  (net 1 \"GND\")\n  (net 2 \"+3.3V\")\n  (net 3 \"AC_L\")\n  (net 4 \"AC_N\")\n  (net 5 \"SC_POS\")\n  (net 6 \"SC_NEG\")" ∧
  (∀ q : ℚ, ∃ ip : String,
    format_coord q = ip ++ "." ++ frac4 ((ratRound (q * 10000)).natAbs % 10000) ∧
    (frac4 ((ratRound (q * 10000)).natAbs % 10000)).length = 4 ∧
    ∀ ch ∈ (frac4 ((ratRound (q * 10000)).natAbs % 10000)).data, ch.isDigit = true)

set_option maxRecDepth 40000 in
/-- Claim C7: proved for both supported layer counts. -/
theorem claim_C7_structure (g : Nat → String) (comps : List Component) (w h : ℚ)
    (nl : Nat) (_hnl : nl = 2 ∨ nl = 4) : C7Concl g comps w h nl := by
  refine ⟨?_, by decide, by decide, by decide, ?_⟩
  · unfold generate_pcb
    rw [show mountPositions w h = [((4 : ℚ), (4 : ℚ)), (w - 4, 4), (4, h - 4), (w - 4, h - 4)]
      from rfl]
    simp only [emitHoles]
    norm_num
    rw [emitComps_eq]
  · intro q
    refine ⟨(if ratRound (q * 10000) < 0 then "-" else "")
        ++ natRepr ((ratRound (q * 10000)).natAbs / 10000), rfl, rfl, ?_⟩
    intro ch hch
    have : (frac4 ((ratRound (q * 10000)).natAbs % 10000)).data =
        [digitChar10 ((ratRound (q * 10000)).natAbs % 10000 / 1000),
         digitChar10 ((ratRound (q * 10000)).natAbs % 10000 / 100),
         digitChar10 ((ratRound (q * 10000)).natAbs % 10000 / 10),
         digitChar10 ((ratRound (q * 10000)).natAbs % 10000)] := rfl
    rw [this] at hch
    simp only [List.mem_cons, List.not_mem_nil, or_false] at hch
    rcases hch with rfl | rfl | rfl | rfl <;> exact digitChar10_isDigit _

theorem claim_C7_witness :
    ((2 : Nat) = 2 ∨ (2 : Nat) = 4) ∧ C7Concl (fun _ => "u") [] 100 100 2 :=
  ⟨Or.inl rfl, claim_C7_structure (fun _ => "u") [] 100 100 2 (Or.inl rfl)⟩
